import Mathlib

/-!
Shallow embedding of the osu-vizualizer core (src/main.py, src/src/beatmap.py,
src/src/replay.py, src/src/utils.py, src/skins/default/slider_render.py) over
exact rational arithmetic, together with theorems settling the frozen claims.

Conventions of the embedding:
* Python floats are modelled as `ℚ` (exact arithmetic).
* Python `int(q)` (truncation toward zero) is `pyTrunc`; Python `q % 1.0` is
  `pyMod1` (result has the sign of the divisor, i.e. `q - ⌊q⌋`).
* A comparison `math.hypot dx dy ≤ r` on reals is encoded exactly as
  `0 ≤ r ∧ dx^2 + dy^2 ≤ r^2` (`hypot` is nonnegative, and squaring is
  monotone on nonnegatives), avoiding irrational square roots.
* Transcendental library calls (`math.sqrt`, `math.atan2`, `math.cos`,
  `math.sin`, `math.pi`) are abstracted as an oracle record `RealOracle`;
  every theorem that touches them holds for an arbitrary oracle, and code
  paths settled by the claims never depend on the oracle's values.
* Fallible code (Python raising `ZeroDivisionError`) returns `Option`.
-/

/-- Python `int(q)`: truncation toward zero. -/
def pyTrunc (q : ℚ) : ℤ := if q < 0 then ⌈q⌉ else ⌊q⌋

/-- Python `q % 1.0` on floats: `q - ⌊q⌋`, always in `[0, 1)`. -/
def pyMod1 (q : ℚ) : ℚ := q - ⌊q⌋

/-- Exact encoding of the real-arithmetic comparison `math.hypot dx dy ≤ r`. -/
def hypot_le (dx dy r : ℚ) : Prop := 0 ≤ r ∧ dx ^ 2 + dy ^ 2 ≤ r ^ 2

instance (dx dy r : ℚ) : Decidable (hypot_le dx dy r) := by
  unfold hypot_le; infer_instance

/-- Abstraction of the transcendental float functions used by the source. -/
structure RealOracle where
  sqrt : ℚ → ℚ
  atan2 : ℚ → ℚ → ℚ
  cos : ℚ → ℚ
  sin : ℚ → ℚ
  pi : ℚ

/-- A trivial oracle used to instantiate witnesses whose code path never
consults the oracle. -/
def zeroOracle : RealOracle := ⟨fun _ => 0, fun _ _ => 0, fun _ => 0, fun _ => 0, 0⟩

/-- Modelled from the spec: `src/constants.py` is absent from the repository;
the spec only uses the symbol `PLAYFIELD_HEIGHT` (standard osu playfield is
512×384 units).  No settled claim depends on the numeric value. -/
def OSU_PLAYFIELD_HEIGHT : ℚ := 384

/-- Modelled from the spec: see `OSU_PLAYFIELD_HEIGHT`. -/
def OSU_PLAYFIELD_WIDTH : ℚ := 512

/-! ## DifficultyMath (src/src/utils.py) -/

/-- `calculate_circle_radius` from src/src/utils.py. -/
def calculate_circle_radius (cs : ℚ) : ℚ := 54.4 - 4.48 * cs

/-- `calculate_hit_windows` from src/src/utils.py. -/
def calculate_hit_windows (od : ℚ) : ℚ × ℚ × ℚ :=
  (79.5 - 6 * od, 139.5 - 8 * od, 199.5 - 10 * od)

/-! ## Cursor events and the trajectory sampler (src/main.py) -/

/-- One entry of `cursor_data`: a keyed, timed cursor position. -/
structure CursorEvent where
  time : ℚ
  x : ℚ
  y : ℚ
  keys : ℕ
deriving Repr, DecidableEq

/-- The record returned by `interpolate_cursor_position`. -/
structure CursorState where
  x : ℚ
  y : ℚ
  keys : ℕ
deriving Repr, DecidableEq

/-- `smoothing_filter` from src/main.py: unweighted mean of the values. -/
def smoothing_filter (values : List ℚ) : ℚ := values.sum / values.length

/-- The bracket scan inside `interpolate_cursor_position` (src/main.py):
walk adjacent pairs in order; on the first pair with
`a.time ≤ t ≤ b.time`, linearly blend x/y (optionally smoothing) and take
the later event's keys. -/
def interpScan : List CursorEvent → ℚ → Bool → Option CursorState
  | a :: b :: rest, t, sm =>
    if a.time ≤ t ∧ t ≤ b.time then
      let f := (t - a.time) / (b.time - a.time)
      let x := a.x + f * (b.x - a.x)
      let y := a.y + f * (b.y - a.y)
      if sm then
        some ⟨smoothing_filter [a.x, x, b.x], smoothing_filter [a.y, y, b.y], b.keys⟩
      else
        some ⟨x, y, b.keys⟩
    else interpScan (b :: rest) t sm
  | _, _, _ => none

/-- `interpolate_cursor_position` from src/main.py.  `none` models the
`IndexError` Python raises on an empty sequence (`cursor_data[-1]`). -/
def interpolate_cursor_position (cursorData : List CursorEvent) (currentTime : ℚ)
    (applySmoothing : Bool) : Option CursorState :=
  match interpScan cursorData currentTime applySmoothing with
  | some s => some s
  | none =>
    match cursorData.getLast? with
    | some e => some ⟨e.x, e.y, e.keys⟩
    | none => none

/-! ## Score bookkeeping (src/main.py) -/

/-- The combo/hit-count part of the `score` dict mutated by
`success_hit` and `miss`. -/
structure Score where
  total_hits : ℕ
  combo : ℕ
deriving Repr, DecidableEq

/-- `success_hit` from src/main.py (the `hitscore` argument is accepted and
ignored, exactly as in the source). -/
def success_hit (_hitscore : ℕ) (s : Score) : Score :=
  { total_hits := s.total_hits + 1, combo := s.combo + 1 }

/-- `miss` from src/main.py. -/
def miss (s : Score) : Score :=
  { total_hits := s.total_hits + 1, combo := 0 }

/-! ## Circle judgment (src/main.py, `process_circle`) -/

/-- Result of one `process_circle` call: the updated score, whether the
object was marked in `hitted_objects`, and which judgment call was made
(`some n` for `success_hit n`, `none` in the `judged = true` case for
`miss`). -/
structure JudgeResult where
  score : Score
  judged : Bool
  tier : Option ℕ
deriving Repr, DecidableEq

/-- `process_circle` from src/main.py.  `timeDiff = current_time - obj.time`
and `newKeyPressed = current_key & ~previous_key` are computed by the caller
(`handle_input_and_hits`), exactly as in the source.  The guard
`distance > radius` is encoded as the negation of `hypot_le`. -/
def process_circle (timeDiff cx cy ox oy cs w300 w100 w50 : ℚ)
    (newKeyPressed : ℕ) (score : Score) : JudgeResult :=
  if newKeyPressed = 0 then ⟨score, false, none⟩
  else
    let radius := calculate_circle_radius cs
    if ¬ hypot_le (cx - ox) (cy - oy) radius then
      ⟨score, false, none⟩
    else if -w300 ≤ timeDiff ∧ timeDiff ≤ w300 then
      ⟨success_hit 300 score, true, some 300⟩
    else if -w100 ≤ timeDiff ∧ timeDiff ≤ w100 then
      ⟨success_hit 100 score, true, some 100⟩
    else if -w50 ≤ timeDiff ∧ timeDiff ≤ w50 then
      ⟨success_hit 50 score, true, some 50⟩
    else
      ⟨miss score, true, none⟩

/-! ## Active sliders (src/main.py, `process_active_sliders`) -/

/-- A slider tick record (built by `compute_slider_ticks`). -/
structure Tick where
  time : ℚ
  posx : ℚ
  posy : ℚ
  processed : Bool
  hit : Bool
deriving Repr, DecidableEq

/-- One entry of the `active_sliders` map. -/
structure ActiveSlider where
  start_time : ℚ
  end_time : ℚ
  ticks : List Tick
  missed_ticks : ℕ
  total_ticks : ℕ
deriving Repr, DecidableEq

/-- The tick-processing inner loop of `process_active_sliders`: each
unprocessed tick whose time has elapsed is marked hit iff the cursor is
within `radius` of the tick position and a key is held, otherwise marked
missed (incrementing the missed counter); it is marked processed either way. -/
def processTicks (t cx cy radius : ℚ) (keyPressed : Bool) :
    List Tick → ℕ → List Tick × ℕ
  | [], missed => ([], missed)
  | tk :: rest, missed =>
    if tk.processed then
      let (rest2, m2) := processTicks t cx cy radius keyPressed rest missed
      (tk :: rest2, m2)
    else if t ≥ tk.time then
      if hypot_le (cx - tk.posx) (cy - tk.posy) radius ∧ keyPressed then
        let (rest2, m2) := processTicks t cx cy radius keyPressed rest missed
        ({ tk with hit := true, processed := true } :: rest2, m2)
      else
        let (rest2, m2) := processTicks t cx cy radius keyPressed rest (missed + 1)
        ({ tk with hit := false, processed := true } :: rest2, m2)
    else
      let (rest2, m2) := processTicks t cx cy radius keyPressed rest missed
      (tk :: rest2, m2)

/-- The loop body of `process_active_sliders` (src/main.py) for a single
active slider.  Returns the updated score, the judgment call made on
finalization (`some (some n)` for `success_hit n`, `some none` for `miss`,
`none` while active) and `none` in place of the slider when it is removed
from the active set. -/
def process_active_slider_step (t cx cy radius : ℚ) (keyPressed : Bool)
    (score : Score) (s : ActiveSlider) :
    Score × Option (Option ℕ) × Option ActiveSlider :=
  if t ≥ s.end_time then
    if s.missed_ticks = 0 then (success_hit 300 score, some (some 300), none)
    else if s.missed_ticks < s.total_ticks then (success_hit 100 score, some (some 100), none)
    else (miss score, some none, none)
  else
    let (ticks2, missed2) := processTicks t cx cy radius keyPressed s.ticks s.missed_ticks
    (score, none, some { s with ticks := ticks2, missed_ticks := missed2 })

/-- Specification-side description of what one pass of the tick loop does to
a single tick: unprocessed ticks whose time has elapsed become processed,
hit iff the cursor is within the radius and a key is held. -/
def tickSpecUpdate (t cx cy radius : ℚ) (keyPressed : Bool) (tk : Tick) : Tick :=
  if tk.processed then tk
  else if t ≥ tk.time then
    if hypot_le (cx - tk.posx) (cy - tk.posy) radius ∧ keyPressed then
      { tk with hit := true, processed := true }
    else { tk with hit := false, processed := true }
  else tk

/-- Specification-side predicate: this pass counts the tick as newly missed. -/
def tickNewlyMissed (t cx cy radius : ℚ) (keyPressed : Bool) (tk : Tick) : Bool :=
  !tk.processed && decide (t ≥ tk.time) &&
    !(decide (hypot_le (cx - tk.posx) (cy - tk.posy) radius) && keyPressed)

/-! ## Timing points and slider duration (src/src/beatmap.py) -/

/-- A parsed timing point (`parse_timing_point`); only the fields consumed by
`get_timing_at` are modelled.  `uninherited` is the raw integer field,
tested for truthiness as in Python. -/
structure TimingPoint where
  time : ℚ
  beat_length : ℚ
  uninherited : ℤ
deriving Repr, DecidableEq

/-- The scan loop of `get_timing_at`: walk timing points in list order,
tracking the latest uninherited and inherited points with `time ≤ t`,
breaking at the first point with `time > t`. -/
def timingScan : List TimingPoint → ℚ →
    Option TimingPoint → Option TimingPoint → Option TimingPoint × Option TimingPoint
  | [], _, lu, li => (lu, li)
  | tp :: rest, t, lu, li =>
    if tp.time ≤ t then
      if tp.uninherited ≠ 0 then timingScan rest t (some tp) li
      else timingScan rest t lu (some tp)
    else (lu, li)

/-- `get_timing_at` from src/src/beatmap.py: beat length from the tracked
uninherited point (default 500), slider velocity `-100 / beat_length` from
the tracked inherited point (default 1.0). -/
def get_timing_at (timingPoints : List TimingPoint) (t : ℚ) : ℚ × ℚ :=
  let (lu, li) := timingScan timingPoints t none none
  let beat_length := match lu with
    | some tp => tp.beat_length
    | none => 500
  let slider_velocity := match li with
    | some tp => -100 / tp.beat_length
    | none => 1
  (beat_length, slider_velocity)

/-- `calculate_slider_duration` from src/src/beatmap.py, with the beatmap
fields it reads (`timing_points`, `difficulty['SliderMultiplier']`) and the
slider fields (`length`, `slides`, `time`) passed explicitly. -/
def calculate_slider_duration (timingPoints : List TimingPoint)
    (sliderMultiplier : ℚ) (length : ℚ) (slides : ℤ) (time : ℚ) : ℚ :=
  let (beat_length, slider_velocity) := get_timing_at timingPoints time
  let pixel_length_per_beat := sliderMultiplier * slider_velocity * 100
  let duration_per_repeat := (length * beat_length) / pixel_length_per_beat
  duration_per_repeat * slides

/-- Specification-side lookup: the last timing point in list order with
`time ≤ t` that is uninherited. -/
def lastUninheritedAt (timingPoints : List TimingPoint) (t : ℚ) : Option TimingPoint :=
  (timingPoints.filter fun tp => tp.time ≤ t ∧ tp.uninherited ≠ 0).getLast?

/-- Specification-side lookup: the last timing point in list order with
`time ≤ t` that is inherited. -/
def lastInheritedAt (timingPoints : List TimingPoint) (t : ℚ) : Option TimingPoint :=
  (timingPoints.filter fun tp => tp.time ≤ t ∧ tp.uninherited = 0).getLast?

/-! ## Replay decoding (src/src/replay.py) -/

/-- One parsed replay frame `(time_delta, x, y, keys)`. -/
structure ReplayFrame where
  time_delta : ℤ
  x : ℚ
  y : ℚ
  keys : ℕ
deriving Repr, DecidableEq

/-- osrparse `Mod.HardRock` bit. -/
def MOD_HARD_ROCK : ℕ := 16

/-- The accumulator loop of `ReplayData.get_cursor_positions`: frames with
`time_delta ≤ 0` are skipped without touching the running total; otherwise
the delta is added and an event is emitted at the running total, with the
Hard-Rock vertical flip applied to `y` when the mod bit is set. -/
def replayDecodeLoop (hardRock : Bool) : List ReplayFrame → ℚ → List CursorEvent
  | [], _ => []
  | f :: rest, total =>
    if f.time_delta ≤ 0 then replayDecodeLoop hardRock rest total
    else
      let total2 := total + (f.time_delta : ℚ)
      { time := total2, x := f.x,
        y := if hardRock then OSU_PLAYFIELD_HEIGHT - f.y else f.y,
        keys := f.keys } :: replayDecodeLoop hardRock rest total2

/-- `ReplayData.get_cursor_positions` from src/src/replay.py. -/
def get_cursor_positions (frames : List ReplayFrame) (mods : ℕ) : List CursorEvent :=
  replayDecodeLoop (mods &&& MOD_HARD_ROCK ≠ 0) frames 0

/-- Specification-side cumulative sums: `cumsum l acc` lists the running
totals `acc + d₁, acc + d₁ + d₂, …`. -/
def cumsum : List ℚ → ℚ → List ℚ
  | [], _ => []
  | d :: rest, acc => (acc + d) :: cumsum rest (acc + d)

/-- Specification-side replay decoding, following the spec's words: drop the
non-positive deltas, take cumulative sums of the positive deltas as absolute
times, flip `y` about the playfield height under Hard Rock. -/
def decodeReplaySpec (frames : List ReplayFrame) (mods : ℕ) : List CursorEvent :=
  let positives := frames.filter fun f => 0 < f.time_delta
  List.zipWith
    (fun t f => { time := t, x := f.x,
                  y := if mods &&& MOD_HARD_ROCK ≠ 0 then OSU_PLAYFIELD_HEIGHT - f.y else f.y,
                  keys := f.keys })
    (cumsum (positives.map fun f => (f.time_delta : ℚ)) 0) positives

/-! ## Hit objects and slider geometry (src/main.py, src/src/beatmap.py) -/

/-- A 2-D point (`{'x': …, 'y': …}` dicts in the source). -/
structure Point where
  x : ℚ
  y : ℚ
deriving Repr, DecidableEq

/-- The tag stored in `obj['object_name']` by `parse_hit_object`. -/
inductive ObjName where
  | circle
  | slider
  | spinner
deriving Repr, DecidableEq

/-- A parsed hit object.  Non-slider objects carry default values in the
slider-only fields (the Python dict simply lacks those keys). -/
structure HitObj where
  objName : ObjName
  x : ℚ
  y : ℚ
  time : ℚ
  sliderType : Char := 'L'
  curvePoints : List Point := []
  slides : ℤ := 1
  length : ℚ := 0
  slider_duration : ℚ := 0
deriving Repr, DecidableEq

/-- `calculate_circle` from src/main.py: circle through three points, `none`
when `|det| < 1e-6` (colinear).  The radius `math.hypot(x1-h, y1-k)` goes
through the sqrt oracle. -/
def calculate_circle (o : RealOracle) (x1 y1 x2 y2 x3 y3 : ℚ) : Option (ℚ × ℚ × ℚ) :=
  let temp := x2 ^ 2 + y2 ^ 2
  let bc := (x1 ^ 2 + y1 ^ 2 - temp) / 2
  let cd := (temp - x3 ^ 2 - y3 ^ 2) / 2
  let det := (x1 - x2) * (y2 - y3) - (x2 - x3) * (y1 - y2)
  if |det| < 1e-6 then none
  else
    let h := (bc * (y2 - y3) - cd * (y1 - y2)) / det
    let k := ((x1 - x2) * cd - (x2 - x3) * bc) / det
    let r := o.sqrt ((x1 - h) ^ 2 + (y1 - k) ^ 2)
    some (h, k, r)

/-- `determine_arc_direction` from src/main.py: `true` means clockwise
(negative cross product). -/
def determine_arc_direction (x1 y1 x2 y2 x3 y3 : ℚ) : Bool :=
  let cross := (x2 - x1) * (y3 - y2) - (y2 - y1) * (x3 - x2)
  cross < 0

/-- `get_slider_position_at` from src/main.py.  The `'L'` and default
branches blend linearly from the head position to the last curve point; the
`'P'` branch fits a circle through start/control/end and falls back to the
same linear blend when `calculate_circle` reports colinearity.  List
accesses `curve_points[0]` / `curve_points[-1]` use a `⟨0,0⟩` default that
is unreachable under the source's own guards. -/
def get_slider_position_at (o : RealOracle) (s : HitObj) (progress : ℚ) : Point :=
  if s.sliderType = 'L' then
    let ep := s.curvePoints.getLastD ⟨0, 0⟩
    ⟨s.x + (ep.x - s.x) * progress, s.y + (ep.y - s.y) * progress⟩
  else if s.sliderType = 'P' then
    if s.curvePoints.length < 1 then ⟨s.x, s.y⟩
    else
      let cp := s.curvePoints.headD ⟨0, 0⟩
      let ep := s.curvePoints.getLastD ⟨0, 0⟩
      let x1 := s.x; let y1 := s.y
      let x2 := cp.x; let y2 := cp.y
      let x3 := ep.x; let y3 := ep.y
      match calculate_circle o x1 y1 x2 y2 x3 y3 with
      | none => ⟨x1 + (x3 - x1) * progress, y1 + (y3 - y1) * progress⟩
      | some (h, k, r) =>
        let angle1 := o.atan2 (y1 - k) (x1 - h)
        let angle2 := o.atan2 (y3 - k) (x3 - h)
        let clockwise := determine_arc_direction x1 y1 x2 y2 x3 y3
        let angle2b :=
          if clockwise then (if angle2 > angle1 then angle2 - 2 * o.pi else angle2)
          else (if angle2 < angle1 then angle2 + 2 * o.pi else angle2)
        let angle := angle1 + progress * (angle2b - angle1)
        ⟨h + r * o.cos angle, k + r * o.sin angle⟩
  else
    let ep := s.curvePoints.getLastD ⟨0, 0⟩
    ⟨s.x + (ep.x - s.x) * progress, s.y + (ep.y - s.y) * progress⟩

/-- `np.linspace a b n`: `n` evenly spaced values from `a` to `b` inclusive. -/
def linspace (a b : ℚ) (n : ℕ) : List ℚ :=
  if n = 0 then []
  else if n = 1 then [a]
  else (List.range n).map fun i => a + (b - a) * i / (n - 1)

/-- `sample_perfect_segment` from src/skins/default/slider_render.py.
The perpendicular-bisector slopes are `Option ℚ` (`none` models Python's
`None`); every degenerate branch returns the empty list, exactly as the
source does (printing a warning and `return []`). -/
def sample_perfect_segment (o : RealOracle) (p0 p1 p2 : Point)
    (num_samples : ℕ) : List Point :=
  let x0 := p0.x; let y0 := p0.y
  let x1 := p1.x; let y1 := p1.y
  let x2 := p2.x; let y2 := p2.y
  let mid1x := (x0 + x1) / 2
  let mid1y := (y0 + y1) / 2
  let perp1 : Option ℚ :=
    if x1 - x0 ≠ 0 then
      (let slope1 := (y1 - y0) / (x1 - x0)
       if slope1 ≠ 0 then some (-1 / slope1) else none)
    else some 0
  let mid2x := (x1 + x2) / 2
  let mid2y := (y1 + y2) / 2
  let perp2 : Option ℚ :=
    if x2 - x1 ≠ 0 then
      (let slope2 := (y2 - y1) / (x2 - x1)
       if slope2 ≠ 0 then some (-1 / slope2) else none)
    else some 0
  let center : Option (ℚ × ℚ) :=
    match perp1, perp2 with
    | some ps1, some ps2 =>
      if ps1 = ps2 then none
      else
        let cx := (ps1 * mid1x - ps2 * mid2x + mid2y - mid1y) / (ps1 - ps2)
        some (cx, ps1 * (cx - mid1x) + mid1y)
    | none, some ps2 =>
      let cx := mid1x
      some (cx, ps2 * (cx - mid2x) + mid2y)
    | some ps1, none =>
      let cx := mid2x
      some (cx, ps1 * (cx - mid1x) + mid1y)
    | none, none => none
  match center with
  | none => []
  | some (cx, cy) =>
    let radius := o.sqrt ((cx - x0) ^ 2 + (cy - y0) ^ 2)
    let start_angle := o.atan2 (y0 - cy) (x0 - cx)
    let end_angle := o.atan2 (y2 - cy) (x2 - cx)
    let cross := (x1 - x0) * (y2 - y0) - (y1 - y0) * (x2 - x0)
    let direction : ℤ := if cross > 0 then 1 else -1
    let angle_diff0 := end_angle - start_angle
    let angle_diff :=
      if direction = 1 then
        (if angle_diff0 ≤ 0 then angle_diff0 + 2 * o.pi else angle_diff0)
      else
        (if angle_diff0 ≥ 0 then angle_diff0 - 2 * o.pi else angle_diff0)
    (linspace start_angle (start_angle + angle_diff) num_samples).map fun angle =>
      ⟨cx + radius * o.cos angle, cy + radius * o.sin angle⟩

/-! ## Slider ball (src/skins/default/slider_render.py) -/

/-- Python list indexing, including negative indices from the end. -/
def pyGet (l : List Point) (i : ℤ) : Point :=
  if 0 ≤ i then l.getD i.toNat ⟨0, 0⟩
  else l.getD (l.length - (-i).toNat) ⟨0, 0⟩

/-- The fields of the `slider` dict read by `get_slider_ball_position`
(note the source reads `slider.get('slides', 1)` from the *active-slider*
dict, and reads the sampled path from a module-level cache; the path is
passed explicitly here). -/
structure BallSlider where
  start_time : ℚ
  end_time : ℚ
  objx : ℚ
  objy : ℚ
  slides : ℤ
deriving Repr, DecidableEq

/-- `get_slider_ball_position` from src/skins/default/slider_render.py. -/
def get_slider_ball_position (slider : BallSlider) (path : List Point)
    (current_time : ℚ) : Point :=
  let slider_duration := slider.end_time - slider.start_time
  let elapsed := current_time - slider.start_time
  let t0 : ℚ := if slider_duration ≤ 0 then 1 else elapsed / slider_duration
  let t := max 0 (min t0 1)
  match path with
  | [] => ⟨slider.objx, slider.objy⟩
  | _ :: _ =>
    let path_progress := t * slider.slides
    let loop := pyTrunc path_progress
    let progress0 := path_progress - loop
    let progress := pyMod1 progress0
    let index0 := pyTrunc (progress * (path.length - 1))
    let index := min index0 ((path.length : ℤ) - 2)
    let p1 := pyGet path index
    let p2 := pyGet path (index + 1)
    let local_t := progress * (path.length - 1) - index
    ⟨p1.x + (p2.x - p1.x) * local_t, p1.y + (p2.y - p1.y) * local_t⟩

/-- The tail of `get_slider_ball_position` once the loop progress is known:
index `⌊q · (N-1)⌋` into the sampled polyline (clamped to `N-2`) with linear
blending to the next sample. -/
def ballAtProgress (slider : BallSlider) (path : List Point) (q : ℚ) : Point :=
  match path with
  | [] => ⟨slider.objx, slider.objy⟩
  | _ :: _ =>
    let index0 := pyTrunc (q * (path.length - 1))
    let index := min index0 ((path.length : ℤ) - 2)
    let p1 := pyGet path index
    let p2 := pyGet path (index + 1)
    let local_t := q * (path.length - 1) - index
    ⟨p1.x + (p2.x - p1.x) * local_t, p1.y + (p2.y - p1.y) * local_t⟩

/-- Specification-side ball position following the claim's words: identical
to `get_slider_ball_position` except that during odd-numbered repeats the
loop progress is reversed (`1 - progress`), producing back-and-forth
traversal. -/
def ballPosSpecBackForth (slider : BallSlider) (path : List Point)
    (current_time : ℚ) : Point :=
  let slider_duration := slider.end_time - slider.start_time
  let elapsed := current_time - slider.start_time
  let t0 : ℚ := if slider_duration ≤ 0 then 1 else elapsed / slider_duration
  let t := max 0 (min t0 1)
  match path with
  | [] => ⟨slider.objx, slider.objy⟩
  | _ :: _ =>
    let path_progress := t * slider.slides
    let loop := pyTrunc path_progress
    let progress0 := pyMod1 (path_progress - loop)
    let progress := if loop % 2 = 1 then 1 - progress0 else progress0
    let index0 := pyTrunc (progress * (path.length - 1))
    let index := min index0 ((path.length : ℤ) - 2)
    let p1 := pyGet path index
    let p2 := pyGet path (index + 1)
    let local_t := progress * (path.length - 1) - index
    ⟨p1.x + (p2.x - p1.x) * local_t, p1.y + (p2.y - p1.y) * local_t⟩

/-! ## Beatmap and the Hard-Rock transform (src/src/beatmap.py) -/

/-- The difficulty entries consumed by the core (`self.difficulty` dict);
`none` models an absent key. -/
structure Difficulty where
  circleSize : Option ℚ
  approachRate : Option ℚ
  overallDifficulty : Option ℚ
  hpDrainRate : Option ℚ
  sliderMultiplier : Option ℚ
  sliderTickRate : Option ℚ
deriving Repr, DecidableEq

/-- The beatmap fields touched by `apply_hard_rock_mod`. -/
structure Beatmap where
  difficulty : Difficulty
  timing_points : List TimingPoint
  hit_objects : List HitObj
deriving Repr, DecidableEq

/-- The stat rescale of `apply_hard_rock_mod`: `min(original * 1.4, 10)`,
with the dict default of 5 for a missing stat. -/
def hardRockStat (stat : Option ℚ) : Option ℚ :=
  some (min (stat.getD 5 * 1.4) 10)

/-- The vertical flip of `apply_hard_rock_mod` on one hit object: `y` is
mirrored, and for sliders every curve point's `y` is mirrored too. -/
def hardRockFlipObj (obj : HitObj) : HitObj :=
  let obj2 := { obj with y := OSU_PLAYFIELD_HEIGHT - obj.y }
  if obj2.objName = ObjName.slider then
    { obj2 with curvePoints := obj2.curvePoints.map fun p =>
        { p with y := OSU_PLAYFIELD_HEIGHT - p.y } }
  else obj2

/-- `Beatmap.apply_hard_rock_mod` from src/src/beatmap.py. -/
def apply_hard_rock_mod (b : Beatmap) : Beatmap :=
  { b with
    difficulty :=
      { b.difficulty with
        circleSize := hardRockStat b.difficulty.circleSize
        approachRate := hardRockStat b.difficulty.approachRate
        overallDifficulty := hardRockStat b.difficulty.overallDifficulty
        hpDrainRate := hardRockStat b.difficulty.hpDrainRate }
    hit_objects := b.hit_objects.map hardRockFlipObj }

/-! ## Auto playstyle (src/main.py, `generate_auto_play_cursor_data`) -/

/-- osrparse `Key.K1` bit, used by the Dancer synthesizer. -/
def KEY_K1 : ℕ := 4

/-- The events `generate_auto_play_cursor_data` appends for one hit object.
For a slider, `num_points = int(slider_duration / 10)`; when that is zero the
first loop iteration evaluates `0 / 0` and Python raises
`ZeroDivisionError`, modelled as `none`.  (A negative `num_points` makes
`range(num_points + 1)` empty: no events and no division.) -/
def autoObjEvents (o : RealOracle) (obj : HitObj) : Option (List CursorEvent) :=
  match obj.objName with
  | ObjName.circle =>
    some [{ time := obj.time - 36, x := obj.x, y := obj.y, keys := 1 }]
  | ObjName.slider =>
    let num_points := pyTrunc (obj.slider_duration / 10)
    if num_points = 0 then none
    else
      some ((List.range (num_points + 1).toNat).map fun (i : ℕ) =>
        let progress := (i : ℚ) / (num_points : ℚ)
        let interp_time := obj.time + progress * obj.slider_duration
        let position := get_slider_position_at o obj progress
        { time := interp_time, x := position.x, y := position.y, keys := 1 })
  | ObjName.spinner =>
    some [{ time := obj.time - 36, x := OSU_PLAYFIELD_WIDTH / 2,
            y := OSU_PLAYFIELD_HEIGHT / 2, keys := 1 }]

/-- `generate_auto_play_cursor_data` from src/main.py: per-object events
concatenated in beatmap order; `none` as soon as any slider triggers the
division by zero. -/
def generate_auto_play_cursor_data (o : RealOracle) :
    List HitObj → Option (List CursorEvent)
  | [] => some []
  | obj :: rest => do
    let evs ← autoObjEvents o obj
    let tail ← generate_auto_play_cursor_data o rest
    pure (evs ++ tail)

/-! ## Dancer playstyle (src/main.py, `generate_dancer_cursor_data`) -/

/-- `compute_angle` from src/main.py: absolute angle in degrees between two
vectors, via the atan2 oracle. -/
def compute_angle (o : RealOracle) (x1 y1 x2 y2 : ℚ) : ℚ :=
  let dot := x1 * x2 + y1 * y2
  let det := x1 * y2 - y1 * x2
  |o.atan2 det dot * 180 / o.pi|

/-- The loop state of `generate_dancer_cursor_data`. -/
structure DancerState where
  prevTime : ℚ
  prevX : ℚ
  prevY : ℚ
  prevEnd : Option Point
  prevObj : Option HitObj
  curveDir : ℤ
deriving Repr, DecidableEq

/-- One movement-curve sample of the Dancer loop: the cubic Bézier through
the perpendicular-offset thirds-point controls, evaluated at `t_normalized`.
`length` goes through the sqrt oracle, with the source's `length != 0`
normalization guard. -/
def dancerBezierPoint (o : RealOracle) (dancingDegree : ℚ) (curveDir : ℤ)
    (startx starty x y tNorm : ℚ) : ℚ × ℚ :=
  let dx0 := y - starty
  let dy0 := startx - x
  let length := o.sqrt (dx0 ^ 2 + dy0 ^ 2)
  let dx := if length ≠ 0 then dx0 / length else 0
  let dy := if length ≠ 0 then dy0 / length else 0
  let offset := dancingDegree * length * curveDir
  let c1x := startx + (x - startx) / 3 + dx * offset
  let c1y := starty + (y - starty) / 3 + dy * offset
  let c2x := startx + 2 * (x - startx) / 3 + dx * offset
  let c2y := starty + 2 * (y - starty) / 3 + dy * offset
  let bx := (1 - tNorm) ^ 3 * startx + 3 * (1 - tNorm) ^ 2 * tNorm * c1x +
            3 * (1 - tNorm) * tNorm ^ 2 * c2x + tNorm ^ 3 * x
  let by_ := (1 - tNorm) ^ 3 * starty + 3 * (1 - tNorm) ^ 2 * tNorm * c1y +
             3 * (1 - tNorm) * tNorm ^ 2 * c2y + tNorm ^ 3 * y
  (bx, by_)

/-- The dense movement-curve samples of one Dancer loop iteration
(`for t in range(num_points)` in the source). -/
def dancerMovement (o : RealOracle) (dancingDegree : ℚ) (curveDir : ℤ)
    (startx starty x y prevTime time_diff : ℚ) (num_points : ℤ) :
    List CursorEvent :=
  (List.range num_points.toNat).map fun (t : ℕ) =>
    let tNorm := (t : ℚ) / (num_points : ℚ)
    let interp_time := prevTime + tNorm * time_diff
    let (bx, by_) := dancerBezierPoint o dancingDegree curveDir startx starty x y tNorm
    { time := interp_time, x := bx, y := by_, keys := 0 }

/-- The key-hold samples of one Dancer loop iteration (the second
`for t in range(num_points)` in the source). -/
def dancerHold (x y time time_diff2 : ℚ) (num_points2 : ℤ) : List CursorEvent :=
  (List.range num_points2.toNat).map fun (t : ℕ) =>
    let tNorm := (t : ℚ) / (num_points2 : ℚ)
    { time := time + tNorm * time_diff2, x := x, y := y, keys := KEY_K1 }

/-- The slider-tracing samples of one Dancer loop iteration
(`for i in range(num_slider_points + 1)` in the source). -/
def dancerSliderEvs (o : RealOracle) (obj : HitObj)
    (num_slider_points : ℤ) : List CursorEvent :=
  (List.range (num_slider_points.toNat + 1)).map fun (i : ℕ) =>
    let progress := (i : ℚ) / (num_slider_points : ℚ)
    let position := get_slider_position_at o obj progress
    { time := obj.time + progress * obj.slider_duration,
      x := position.x, y := position.y, keys := KEY_K1 }

/-- The start position of the movement curve for one Dancer loop iteration:
the previous slider's end position, the previous position, or (for the first
object) the object's own position. -/
def dancerStart (st : DancerState) (obj : HitObj) : ℚ × ℚ :=
  match st.prevObj with
  | some p =>
    if p.objName = ObjName.slider then
      ((st.prevEnd.getD ⟨st.prevX, st.prevY⟩).x, (st.prevEnd.getD ⟨st.prevX, st.prevY⟩).y)
    else (st.prevX, st.prevY)
  | none => (obj.x, obj.y)

/-- The curve-direction update of one Dancer loop iteration (the
`alternate_curve_direction` heuristic with its 30-degree threshold). -/
def dancerCurveDir (o : RealOracle) (alt : Bool) (st : DancerState)
    (obj : HitObj) (rest : List HitObj) : ℤ :=
  let startx := (dancerStart st obj).1
  let starty := (dancerStart st obj).2
  if alt ∧ st.prevObj.isSome ∧ rest ≠ [] then
    let nxt := rest.headD obj
    let angle_diff := compute_angle o (obj.x - startx) (obj.y - starty)
      (nxt.x - obj.x) (nxt.y - obj.y)
    if angle_diff < 30 then -st.curveDir else st.curveDir
  else if alt then 1 else st.curveDir

/-- The body of the Dancer `for` loop for one hit object: the movement
curve from the previous position, the key-hold samples, the key release,
and for sliders the slider-path samples with the trailing release.
`rest` is the remainder of the object list (used for the
`i < len(hit_objects) - 1` next-object check). -/
def dancerStep (o : RealOracle) (dancingDegree : ℚ) (alt : Bool)
    (st : DancerState) (obj : HitObj) (rest : List HitObj) :
    List CursorEvent × DancerState :=
  let time := obj.time
  let x := obj.x
  let y := obj.y
  let startx := (dancerStart st obj).1
  let starty := (dancerStart st obj).2
  let time_diff0 := time - st.prevTime
  let time_diff := if time_diff0 ≤ 0 then 1 else time_diff0
  let num_points := max (pyTrunc (time_diff / 2)) 1
  let curveDir : ℤ := dancerCurveDir o alt st obj rest
  let movement := dancerMovement o dancingDegree curveDir startx starty x y
    st.prevTime time_diff num_points
  let key_release_time := time + 20
  let time_diff2 := key_release_time - time
  let num_points2 := max (pyTrunc (time_diff2 / 2)) 1
  let hold := dancerHold x y time time_diff2 num_points2
  let release : CursorEvent := { time := key_release_time, x := x, y := y, keys := 0 }
  if obj.objName = ObjName.slider then
    let slider_duration := obj.slider_duration
    let num_slider_points := max (pyTrunc (slider_duration / 2)) 1
    let sliderEvs := dancerSliderEvs o obj num_slider_points
    let lastPos := get_slider_position_at o obj
      ((num_slider_points : ℚ) / (num_slider_points : ℚ))
    let release2_time := obj.time + slider_duration + 20
    let release2 : CursorEvent :=
      { time := release2_time, x := lastPos.x, y := lastPos.y, keys := 0 }
    (movement ++ hold ++ [release] ++ sliderEvs ++ [release2],
     { prevTime := release2_time, prevX := lastPos.x, prevY := lastPos.y,
       prevEnd := some lastPos, prevObj := some obj, curveDir := curveDir })
  else
    (movement ++ hold ++ [release],
     { prevTime := key_release_time, prevX := x, prevY := y,
       prevEnd := none, prevObj := some obj, curveDir := curveDir })

/-- The Dancer `for` loop over the hit objects. -/
def dancerLoop (o : RealOracle) (dancingDegree : ℚ) (alt : Bool) :
    DancerState → List HitObj → List CursorEvent
  | _, [] => []
  | st, obj :: rest =>
    let (evs, st2) := dancerStep o dancingDegree alt st obj rest
    evs ++ dancerLoop o dancingDegree alt st2 rest

/-- `generate_dancer_cursor_data` from src/main.py: the idle approach event
1000 ms before the first object, then the per-object loop. -/
def generate_dancer_cursor_data (o : RealOracle) (objs : List HitObj)
    (dancingDegree : ℚ) (alt : Bool) : List CursorEvent :=
  match objs with
  | [] => []
  | first :: _ =>
    let move_start_time := first.time - 1000
    { time := move_start_time, x := first.x, y := first.y, keys := 0 } ::
      dancerLoop o dancingDegree alt
        { prevTime := move_start_time, prevX := first.x, prevY := first.y,
          prevEnd := none, prevObj := none, curveDir := 1 } objs

/-- Specification-side relation: events in non-decreasing time order. -/
def timeLE (a b : CursorEvent) : Prop := a.time ≤ b.time

/-- Specification-side spacing condition between consecutive beatmap objects
under which the Auto synthesizer's output stays time-ordered: after a slider
the next object's lead-in (36 ms before its time) must not start before the
slider's cursor events end; otherwise the objects need only be sorted. -/
def autoGap (a b : HitObj) : Prop :=
  (a.objName = ObjName.slider → a.time + a.slider_duration ≤ b.time - 36) ∧
  (a.objName ≠ ObjName.slider → a.time ≤ b.time)

/-- The time of the last cursor event the Auto synthesizer emits for an
object: `time + slider_duration` for a slider, `time - 36` otherwise. -/
def autoEnd (obj : HitObj) : ℚ :=
  if obj.objName = ObjName.slider then obj.time + obj.slider_duration
  else obj.time - 36

/-! # Theorems -/

theorem chain'_map_range {α : Type} (R : α → α → Prop) (n : ℕ) (f : ℕ → α)
    (h : ∀ i, i + 1 < n → R (f i) (f (i + 1))) :
    List.Chain' R ((List.range n).map f) := by
  rw [List.chain'_iff_get]
  intro i hi
  simp only [List.length_map, List.length_range] at hi
  rw [List.get_map, List.get_map, List.get_range, List.get_range]
  exact h i (by omega)

/-! ## C2: circle judgment -/

/-- C2: with a new key edge, `process_circle` is a no-op (not a miss) when
the cursor-to-object distance exceeds the radius; otherwise it judges the
circle, choosing the tier by `|time_diff|` against the 300/100/50 windows in
increasing order with a miss beyond the 50 window; every successful hit
increments the combo by 1 and every miss resets it to 0; and a key edge at
`time_diff = 0` with the cursor within the radius yields tier 300 and combo
incremented by 1. -/
theorem circle_judgment_step :
    (∀ (timeDiff cx cy ox oy cs w300 w100 w50 : ℚ) (nk : ℕ) (score : Score),
      nk ≠ 0 → ¬ hypot_le (cx - ox) (cy - oy) (calculate_circle_radius cs) →
      process_circle timeDiff cx cy ox oy cs w300 w100 w50 nk score =
        ⟨score, false, none⟩) ∧
    (∀ (timeDiff cx cy ox oy cs w300 w100 w50 : ℚ) (nk : ℕ) (score : Score),
      nk ≠ 0 → hypot_le (cx - ox) (cy - oy) (calculate_circle_radius cs) →
      process_circle timeDiff cx cy ox oy cs w300 w100 w50 nk score =
        (if |timeDiff| ≤ w300 then ⟨success_hit 300 score, true, some 300⟩
         else if |timeDiff| ≤ w100 then ⟨success_hit 100 score, true, some 100⟩
         else if |timeDiff| ≤ w50 then ⟨success_hit 50 score, true, some 50⟩
         else ⟨miss score, true, none⟩)) ∧
    (∀ (n : ℕ) (score : Score), (success_hit n score).combo = score.combo + 1) ∧
    (∀ score : Score, (miss score).combo = 0) ∧
    (∀ (cx cy ox oy cs w300 w100 w50 : ℚ) (nk : ℕ) (score : Score),
      nk ≠ 0 → hypot_le (cx - ox) (cy - oy) (calculate_circle_radius cs) →
      0 ≤ w300 →
      process_circle 0 cx cy ox oy cs w300 w100 w50 nk score =
        ⟨success_hit 300 score, true, some 300⟩ ∧
      (success_hit 300 score).combo = score.combo + 1) := by
  refine ⟨?_, ?_, ?_, ?_, ?_⟩
  · intro timeDiff cx cy ox oy cs w300 w100 w50 nk score hnk hdist
    simp [process_circle, hnk, hdist]
  · intro timeDiff cx cy ox oy cs w300 w100 w50 nk score hnk hdist
    simp only [process_circle, if_neg hnk, hdist, not_true_eq_false, if_false, abs_le]
  · intro n score; simp [success_hit]
  · intro score; simp [miss]
  · intro cx cy ox oy cs w300 w100 w50 nk score hnk hdist hw
    constructor
    · simp only [process_circle, if_neg hnk, hdist, not_true_eq_false, if_false]
      rw [if_pos ⟨neg_nonpos.mpr hw, hw⟩]
    · simp [success_hit]

/-- Witness for C2 at concrete inputs: OD-8 windows, cursor on the object,
key edge, `time_diff = 0`. -/
theorem circle_judgment_step_witness :
    process_circle 0 100 100 100 100 4 31.5 75.5 119.5 1 ⟨0, 0⟩ =
      ⟨success_hit 300 ⟨0, 0⟩, true, some 300⟩ ∧
    (success_hit 300 (⟨0, 0⟩ : Score)).combo = 1 :=
  circle_judgment_step.2.2.2.2 100 100 100 100 4 31.5 75.5 119.5 1 ⟨0, 0⟩
    (by decide) (by norm_num [hypot_le, calculate_circle_radius]) (by norm_num)

/-! ## C3: active sliders -/

theorem processTicks_spec (t cx cy radius : ℚ) (kp : Bool) :
    ∀ (ticks : List Tick) (missed : ℕ),
      processTicks t cx cy radius kp ticks missed =
        (ticks.map (tickSpecUpdate t cx cy radius kp),
         missed + ticks.countP (tickNewlyMissed t cx cy radius kp)) := by
  intro ticks
  induction ticks with
  | nil => intro missed; simp [processTicks]
  | cons tk rest ih =>
    intro missed
    by_cases hp : tk.processed = true
    · have hnm : tickNewlyMissed t cx cy radius kp tk = false := by
        simp [tickNewlyMissed, hp]
      have hsu : tickSpecUpdate t cx cy radius kp tk = tk := by
        simp [tickSpecUpdate, hp]
      simp only [processTicks, if_pos hp, ih, List.map_cons, hsu,
        List.countP_cons, hnm, if_false]
      simp
    · by_cases ht : t ≥ tk.time
      · by_cases hh : hypot_le (cx - tk.posx) (cy - tk.posy) radius ∧ kp = true
        · have hnm : tickNewlyMissed t cx cy radius kp tk = false := by
            simp [tickNewlyMissed, hp, ht, hh.1, hh.2]
          have hsu : tickSpecUpdate t cx cy radius kp tk =
              { tk with hit := true, processed := true } := by
            simp only [tickSpecUpdate]
            rw [if_neg hp, if_pos ht, if_pos hh]
          simp only [processTicks, if_neg hp, if_pos ht, if_pos hh, ih,
            List.map_cons, hsu, List.countP_cons, hnm, if_false]
          simp
        · have hnm : tickNewlyMissed t cx cy radius kp tk = true := by
            simp only [tickNewlyMissed]
            rcases not_and_or.mp hh with h | h
            · simp [hp, ht, h]
            · have hkp : kp = false := by revert h; cases kp <;> simp
              simp [hp, ht, hkp]
          have hsu : tickSpecUpdate t cx cy radius kp tk =
              { tk with hit := false, processed := true } := by
            simp only [tickSpecUpdate]
            rw [if_neg hp, if_pos ht, if_neg hh]
          simp only [processTicks, if_neg hp, if_pos ht, if_neg hh, ih,
            List.map_cons, hsu, List.countP_cons, hnm, if_true]
          simp only [Prod.mk.injEq, true_and]
          omega
      · have hnm : tickNewlyMissed t cx cy radius kp tk = false := by
          simp [tickNewlyMissed, hp, ht]
        have hsu : tickSpecUpdate t cx cy radius kp tk = tk := by
          simp only [tickSpecUpdate]
          rw [if_neg hp, if_neg ht]
        simp only [processTicks, if_neg hp, if_neg ht, ih, List.map_cons, hsu,
          List.countP_cons, hnm, if_false]
        simp

theorem tickSpecUpdate_idem (t cx cy radius : ℚ) (kp : Bool) (tk : Tick) :
    tickSpecUpdate t cx cy radius kp (tickSpecUpdate t cx cy radius kp tk) =
      tickSpecUpdate t cx cy radius kp tk := by
  unfold tickSpecUpdate
  split_ifs <;> simp_all

theorem tickNewlyMissed_after_update (t cx cy radius : ℚ) (kp : Bool) (tk : Tick) :
    tickNewlyMissed t cx cy radius kp (tickSpecUpdate t cx cy radius kp tk) = false := by
  unfold tickSpecUpdate tickNewlyMissed
  split_ifs <;> simp_all

/-- C3: for an active slider, once the end time is reached the finalization
awards tier 300 when no tick was missed, tier 100 when some but not all
ticks were missed, and otherwise a miss (combo reset), and the slider is
removed from the active set (`none`); while active, every unprocessed tick
whose time has elapsed is marked hit iff the cursor is within the object
radius and a key is held (missed otherwise) and is marked processed, and
re-running the tick pass at the same inputs is a fixed point, so no tick is
ever re-counted. -/
theorem active_slider_step :
    (∀ (t cx cy radius : ℚ) (kp : Bool) (score : Score) (s : ActiveSlider),
      s.end_time ≤ t →
      process_active_slider_step t cx cy radius kp score s =
        (if s.missed_ticks = 0 then (success_hit 300 score, some (some 300), none)
         else if s.missed_ticks < s.total_ticks then
           (success_hit 100 score, some (some 100), none)
         else (miss score, some none, none))) ∧
    (∀ (t cx cy radius : ℚ) (kp : Bool) (score : Score) (s : ActiveSlider),
      t < s.end_time →
      process_active_slider_step t cx cy radius kp score s =
        (score, none, some { s with
          ticks := s.ticks.map (tickSpecUpdate t cx cy radius kp),
          missed_ticks := s.missed_ticks +
            s.ticks.countP (tickNewlyMissed t cx cy radius kp) })) ∧
    (∀ score : Score, (miss score).combo = 0) ∧
    (∀ (t cx cy radius : ℚ) (kp : Bool) (ticks : List Tick) (m : ℕ),
      processTicks t cx cy radius kp
        (processTicks t cx cy radius kp ticks m).1
        (processTicks t cx cy radius kp ticks m).2 =
      processTicks t cx cy radius kp ticks m) := by
  refine ⟨?_, ?_, ?_, ?_⟩
  · intro t cx cy radius kp score s hend
    simp [process_active_slider_step, hend]
  · intro t cx cy radius kp score s hlt
    have : ¬ t ≥ s.end_time := not_le.mpr hlt
    simp [process_active_slider_step, this, processTicks_spec]
  · intro score; simp [miss]
  · intro t cx cy radius kp ticks m
    rw [processTicks_spec, processTicks_spec]
    have hz : List.countP
        (tickNewlyMissed t cx cy radius kp ∘ tickSpecUpdate t cx cy radius kp) ticks = 0 := by
      rw [List.countP_eq_zero]
      intro tk _
      simp [Function.comp, tickNewlyMissed_after_update]
    simp only [List.map_map, List.countP_map, hz, Nat.add_zero, Prod.mk.injEq]
    refine ⟨?_, trivial⟩
    exact List.map_congr_left fun tk _ => tickSpecUpdate_idem t cx cy radius kp tk

/-- Witness for C3 at concrete inputs: a finished slider with one missed
tick out of two, and a fixed-point check of the tick pass. -/
theorem active_slider_step_witness :
    process_active_slider_step 2000 0 0 10 true ⟨5, 3⟩
        ⟨1000, 1500, [], 1, 2⟩ =
      (success_hit 100 ⟨5, 3⟩, some (some 100), none) ∧
    process_active_slider_step 1200 0 0 10 true ⟨5, 3⟩
        ⟨1000, 1500, [⟨1100, 3, 4, false, false⟩], 0, 1⟩ =
      (⟨5, 3⟩, none, some ⟨1000, 1500, [⟨1100, 3, 4, true, true⟩], 0, 1⟩) := by
  constructor
  · have h := active_slider_step.1 2000 0 0 10 true ⟨5, 3⟩ ⟨1000, 1500, [], 1, 2⟩
      (by norm_num)
    rw [h]
    norm_num
  · have h := active_slider_step.2.1 1200 0 0 10 true ⟨5, 3⟩
      ⟨1000, 1500, [⟨1100, 3, 4, false, false⟩], 0, 1⟩ (by norm_num)
    rw [h]
    norm_num [tickSpecUpdate, tickNewlyMissed, hypot_le]

/-! ## C1: trajectory sampler -/

theorem interpScan_bracket (t : ℚ) :
    ∀ (pre suf : List CursorEvent) (A B : CursorEvent),
      List.Pairwise (fun a b => a.time < b.time) (pre ++ A :: B :: suf) →
      A.time ≤ t → t ≤ B.time → (pre = [] ∨ A.time < t) →
      interpScan (pre ++ A :: B :: suf) t false =
        some ⟨A.x + (t - A.time) / (B.time - A.time) * (B.x - A.x),
              A.y + (t - A.time) / (B.time - A.time) * (B.y - A.y), B.keys⟩ := by
  intro pre
  induction pre with
  | nil =>
    intro suf A B _ h1 h2 _
    simp only [List.nil_append, interpScan, if_pos (And.intro h1 h2),
      Bool.false_eq_true, if_false]
  | cons a pre' ih =>
    intro suf A B hp h1 h2 hcond
    have hAt : A.time < t := by
      rcases hcond with h | h
      · exact absurd h (List.cons_ne_nil a pre')
      · exact h
    have hp' : List.Pairwise (fun a b => a.time < b.time) (pre' ++ A :: B :: suf) :=
      (List.pairwise_cons.mp (by simpa using hp)).2
    cases pre' with
    | nil =>
      have hskip : ¬ (a.time ≤ t ∧ t ≤ A.time) :=
        fun h => absurd hAt (not_lt.mpr h.2)
      show interpScan (a :: A :: B :: suf) t false = _
      rw [show interpScan (a :: A :: B :: suf) t false =
          if a.time ≤ t ∧ t ≤ A.time then _ else interpScan (A :: B :: suf) t false
        from rfl, if_neg hskip]
      exact ih suf A B hp' h1 h2 (Or.inl rfl)
    | cons b pre'' =>
      have hbA : b.time < A.time := by
        have h3 : List.Pairwise (fun a b => a.time < b.time)
            (b :: (pre'' ++ A :: B :: suf)) := by simpa using hp'
        exact (List.pairwise_cons.mp h3).1 A (by simp)
      have hskip : ¬ (a.time ≤ t ∧ t ≤ b.time) :=
        fun h => absurd (lt_trans hbA hAt) (not_lt.mpr h.2)
      show interpScan (a :: b :: (pre'' ++ A :: B :: suf)) t false = _
      rw [show interpScan (a :: b :: (pre'' ++ A :: B :: suf)) t false =
          if a.time ≤ t ∧ t ≤ b.time then _
          else interpScan (b :: (pre'' ++ A :: B :: suf)) t false from rfl,
        if_neg hskip]
      exact ih suf A B hp' h1 h2 (Or.inr hAt)

theorem interpScan_none_of_all_lt :
    ∀ (data : List CursorEvent) (t : ℚ) (sm : Bool),
      (∀ e ∈ data, e.time < t) → interpScan data t sm = none := by
  intro data
  induction data with
  | nil => intro t sm _; rfl
  | cons a rest ih =>
    intro t sm h
    cases rest with
    | nil => rfl
    | cons b rest' =>
      have hb : b.time < t := h b (by simp)
      have hskip : ¬ (a.time ≤ t ∧ t ≤ b.time) :=
        fun hc => absurd hb (not_lt.mpr hc.2)
      rw [show interpScan (a :: b :: rest') t sm =
          if a.time ≤ t ∧ t ≤ b.time then _ else interpScan (b :: rest') t sm
        from rfl, if_neg hskip]
      exact ih t sm fun e he => h e (List.mem_cons_of_mem a he)

theorem time_le_of_getLast? :
    ∀ (data : List CursorEvent) (e : CursorEvent),
      List.Pairwise (fun a b => a.time < b.time) data →
      data.getLast? = some e → ∀ x ∈ data, x.time ≤ e.time := by
  intro data
  induction data with
  | nil => intro e _ h; simp at h
  | cons a rest ih =>
    intro e hp hl x hx
    cases rest with
    | nil =>
      have : a = e := by simpa using hl
      have hxa : x = a := by simpa using hx
      rw [hxa, this]
    | cons b rest' =>
      have hl' : (b :: rest').getLast? = some e := by
        rwa [List.getLast?_cons_cons] at hl
      have hmem : e ∈ b :: rest' := by
        rcases List.mem_getLast?_eq_getLast hl' with ⟨h9, he⟩
        rw [he]
        exact List.getLast_mem h9
      rcases List.mem_cons.mp hx with rfl | hx2
      · exact le_of_lt ((List.pairwise_cons.mp hp).1 e hmem)
      · exact ih e (List.pairwise_cons.mp hp).2 hl' x hx2

/-- C1 (amended): for a cursor-event sequence with strictly increasing
times and smoothing disabled: (1) for adjacent events A, B bracketing t
with t strictly after A (or A the first event), the sampler returns exactly
the linear blend of A and B with keys taken from B; (2) at t = A.time when
A has a predecessor, the sampler returns A's x, y — and A's keys, not B's;
(3) for t beyond the last event's time it returns the last event's x, y and
keys unchanged.  (The original claim's `sample(A.time) = A` and
`keys = B.keys, never A's` are mutually inconsistent; see the
counterexample.) -/
theorem sampler_linear_interpolation (data : List CursorEvent)
    (hsort : List.Pairwise (fun a b => a.time < b.time) data) :
    (∀ (t : ℚ) (pre suf : List CursorEvent) (A B : CursorEvent),
      data = pre ++ A :: B :: suf →
      A.time ≤ t → t ≤ B.time → (pre = [] ∨ A.time < t) →
      interpolate_cursor_position data t false =
        some ⟨A.x + (t - A.time) / (B.time - A.time) * (B.x - A.x),
              A.y + (t - A.time) / (B.time - A.time) * (B.y - A.y), B.keys⟩) ∧
    (∀ (pre suf : List CursorEvent) (P A : CursorEvent),
      data = pre ++ P :: A :: suf →
      interpolate_cursor_position data A.time false =
        some ⟨A.x, A.y, A.keys⟩) ∧
    (∀ (t : ℚ) (e : CursorEvent),
      data.getLast? = some e → e.time < t →
      interpolate_cursor_position data t false =
        some ⟨e.x, e.y, e.keys⟩) := by
  refine ⟨?_, ?_, ?_⟩
  · intro t pre suf A B hdata h1 h2 hcond
    subst hdata
    unfold interpolate_cursor_position
    rw [interpScan_bracket t pre suf A B hsort h1 h2 hcond]
  · intro pre suf P A hdata
    subst hdata
    have hPA : P.time < A.time := by
      have hp2 : List.Pairwise (fun a b => a.time < b.time) (P :: A :: suf) :=
        (List.pairwise_append.mp hsort).2.1
      exact (List.pairwise_cons.mp hp2).1 A (by simp)
    unfold interpolate_cursor_position
    rw [interpScan_bracket A.time pre suf P A hsort (le_of_lt hPA) le_rfl
      (Or.inr hPA)]
    have hne : A.time - P.time ≠ 0 := sub_ne_zero.mpr (ne_of_gt hPA)
    rw [div_self hne]
    norm_num
  · intro t e hlast ht
    have hall : ∀ x ∈ data, x.time < t := fun x hx =>
      lt_of_le_of_lt (time_le_of_getLast? data e hsort hlast x hx) ht
    unfold interpolate_cursor_position
    rw [interpScan_none_of_all_lt data t false hall, hlast]

/-- C1 counterexample: for the sequence `[A = (time 0, keys 7),
B = (time 10, keys 3)]` the claim demands `sample(A.time) = A` (keys 7),
but the sampler's keys always come from the later event of the bracketing
pair, so it returns keys 3. -/
theorem sampler_keys_counterexample :
    interpolate_cursor_position [⟨0, 0, 0, 7⟩, ⟨10, 1, 1, 3⟩] 0 false ≠
      some ⟨0, 0, 7⟩ := by
  norm_num [interpolate_cursor_position, interpScan]

/-- Witness for C1: the amended theorem applied to a concrete 3-event
sequence at an interior query time. -/
theorem sampler_linear_interpolation_witness :
    interpolate_cursor_position [⟨0, 0, 0, 7⟩, ⟨10, 2, 4, 3⟩, ⟨20, 6, 8, 9⟩]
      5 false = some ⟨1, 2, 3⟩ := by
  have h := (sampler_linear_interpolation
      [⟨0, 0, 0, 7⟩, ⟨10, 2, 4, 3⟩, ⟨20, 6, 8, 9⟩]
      (by norm_num [List.pairwise_cons])).1 5 [] [⟨20, 6, 8, 9⟩]
      ⟨0, 0, 0, 7⟩ ⟨10, 2, 4, 3⟩ rfl (by norm_num) (by norm_num) (Or.inl rfl)
  rw [h]
  norm_num

/-! ## C6: replay decoding -/

theorem replayDecodeLoop_eq (hr : Bool) :
    ∀ (frames : List ReplayFrame) (total : ℚ),
      replayDecodeLoop hr frames total =
        List.zipWith
          (fun t f => ({ time := t, x := f.x,
                         y := if hr then OSU_PLAYFIELD_HEIGHT - f.y else f.y,
                         keys := f.keys } : CursorEvent))
          (cumsum ((frames.filter fun f => 0 < f.time_delta).map
            fun f => (f.time_delta : ℚ)) total)
          (frames.filter fun f => 0 < f.time_delta) := by
  intro frames
  induction frames with
  | nil => intro total; rfl
  | cons f rest ih =>
    intro total
    by_cases hd : f.time_delta ≤ 0
    · have hnot : ¬ 0 < f.time_delta := not_lt.mpr hd
      have hfil : List.filter (fun f => decide (0 < f.time_delta)) (f :: rest) =
          List.filter (fun f => decide (0 < f.time_delta)) rest := by
        simp [List.filter_cons, hnot]
      simp only [replayDecodeLoop, if_pos hd, hfil]
      exact ih total
    · have hlt : 0 < f.time_delta := not_le.mp hd
      have hfil : List.filter (fun f => decide (0 < f.time_delta)) (f :: rest) =
          f :: List.filter (fun f => decide (0 < f.time_delta)) rest := by
        simp [List.filter_cons, hlt]
      simp only [replayDecodeLoop, if_neg hd, hfil, List.map_cons, cumsum,
        List.zipWith_cons_cons]
      rw [ih]

/-- C6: replay decoding drops every frame with `time_delta ≤ 0` without
accumulating its delta, emits events whose absolute time is the cumulative
sum of the positive deltas seen so far, and flips `y` about the playfield
height when the Hard-Rock bit is set — stated as equality with the
specification-side decoder — and the frame list
`[(Δ=-5), (Δ=10, x=100, y=100, keys=1)]` decodes to exactly one event at
time 10. -/
theorem replay_decode :
    (∀ (frames : List ReplayFrame) (mods : ℕ),
      get_cursor_positions frames mods = decodeReplaySpec frames mods) ∧
    get_cursor_positions [⟨-5, 0, 0, 0⟩, ⟨10, 100, 100, 1⟩] 0 =
      [⟨10, 100, 100, 1⟩] := by
  constructor
  · intro frames mods
    unfold get_cursor_positions decodeReplaySpec
    rw [replayDecodeLoop_eq]
    simp only [decide_eq_true_eq]
  · norm_num [get_cursor_positions, replayDecodeLoop]

/-! ## C4: slider duration and timing-point lookup -/

theorem elim_getLast?_cons {α : Type} (a : α) (l : List α) (d : Option α) :
    ((a :: l).getLast?).elim d some = (l.getLast?).elim (some a) some := by
  cases l with
  | nil => rfl
  | cons b l' =>
    rw [List.getLast?_cons_cons]
    cases h : (b :: l').getLast? with
    | none =>
      exact absurd h (by simp)
    | some x => simp [h]

theorem timingScan_eq (t : ℚ) :
    ∀ (tps : List TimingPoint) (lu li : Option TimingPoint),
      List.Pairwise (fun a b => a.time ≤ b.time) tps →
      timingScan tps t lu li =
        ((lastUninheritedAt tps t).elim lu some,
         (lastInheritedAt tps t).elim li some) := by
  intro tps
  induction tps with
  | nil => intro lu li _; rfl
  | cons tp rest ih =>
    intro lu li hp
    have hp' := (List.pairwise_cons.mp hp).2
    by_cases htime : tp.time ≤ t
    · by_cases hu : tp.uninherited ≠ 0
      · have hfU : (lastUninheritedAt (tp :: rest) t).elim lu some =
            (lastUninheritedAt rest t).elim (some tp) some := by
          unfold lastUninheritedAt
          rw [List.filter_cons, if_pos (by simp [htime, hu])]
          exact elim_getLast?_cons tp _ lu
        have hfI : lastInheritedAt (tp :: rest) t = lastInheritedAt rest t := by
          unfold lastInheritedAt
          rw [List.filter_cons, if_neg (by simp [htime, hu])]
        rw [show timingScan (tp :: rest) t lu li =
            timingScan rest t (some tp) li from by
          simp [timingScan, htime, hu]]
        rw [ih (some tp) li hp', hfU, hfI]
      · have hu0 : tp.uninherited = 0 := not_not.mp hu
        have hfI : (lastInheritedAt (tp :: rest) t).elim li some =
            (lastInheritedAt rest t).elim (some tp) some := by
          unfold lastInheritedAt
          rw [List.filter_cons, if_pos (by simp [htime, hu0])]
          exact elim_getLast?_cons tp _ li
        have hfU : lastUninheritedAt (tp :: rest) t = lastUninheritedAt rest t := by
          unfold lastUninheritedAt
          rw [List.filter_cons, if_neg (by simp [htime, hu0])]
        rw [show timingScan (tp :: rest) t lu li =
            timingScan rest t lu (some tp) from by
          simp [timingScan, htime, hu0]]
        rw [ih lu (some tp) hp', hfU, hfI]
    · have hgt : ∀ x ∈ tp :: rest, ¬ x.time ≤ t := by
        intro x hx
        rcases List.mem_cons.mp hx with rfl | hx2
        · exact htime
        · have := (List.pairwise_cons.mp hp).1 x hx2
          exact fun hc => htime (le_trans this hc)
      have hfU : lastUninheritedAt (tp :: rest) t = none := by
        unfold lastUninheritedAt
        rw [List.filter_eq_nil_iff.mpr fun x hx => by simp [hgt x hx]]
        rfl
      have hfI : lastInheritedAt (tp :: rest) t = none := by
        unfold lastInheritedAt
        rw [List.filter_eq_nil_iff.mpr fun x hx => by simp [hgt x hx]]
        rfl
      rw [show timingScan (tp :: rest) t lu li = (lu, li) from by
        simp [timingScan, htime]]
      rw [hfU, hfI]
      rfl

/-- C4: for a time-sorted timing-point list, the slider duration equals
`(length · beat_length · repeats) / (slider_multiplier · SV · 100)`, where
the beat length comes from the last uninherited timing point at or before
the slider's start time (default 500) and the slider velocity is
`-100 / beat_length` of the last inherited timing point at or before that
time (default 1), the two lookups tracked independently. -/
theorem slider_duration_formula (tps : List TimingPoint) (sm len : ℚ)
    (slides : ℤ) (t : ℚ)
    (hsort : List.Pairwise (fun a b => a.time ≤ b.time) tps) :
    get_timing_at tps t =
      ((lastUninheritedAt tps t).elim 500 TimingPoint.beat_length,
       (lastInheritedAt tps t).elim 1 (fun p => -100 / p.beat_length)) ∧
    calculate_slider_duration tps sm len slides t =
      (len * (lastUninheritedAt tps t).elim 500 TimingPoint.beat_length *
        (slides : ℚ)) /
      (sm * (lastInheritedAt tps t).elim 1 (fun p => -100 / p.beat_length) *
        100) := by
  have h1 : get_timing_at tps t =
      ((lastUninheritedAt tps t).elim 500 TimingPoint.beat_length,
       (lastInheritedAt tps t).elim 1 (fun p => -100 / p.beat_length)) := by
    unfold get_timing_at
    rw [timingScan_eq t tps none none hsort]
    cases hU : lastUninheritedAt tps t <;>
      cases hI : lastInheritedAt tps t <;> simp [hU, hI]
  refine ⟨h1, ?_⟩
  unfold calculate_slider_duration
  rw [h1]
  dsimp only
  rw [div_mul_eq_mul_div]

/-- Witness for C4: the spec's round-trip scenario — beat length 500 ms,
multiplier 1, no inherited point (SV 1), pixel length 100, one repeat gives
a 500 ms duration. -/
theorem slider_duration_formula_witness :
    calculate_slider_duration [⟨0, 500, 1⟩] 1 100 1 1000 = 500 := by
  have h := slider_duration_formula [⟨0, 500, 1⟩] 1 100 1 1000 (by simp)
  rw [h.2]
  norm_num [lastUninheritedAt, lastInheritedAt, List.filter]

/-! ## C9: Hard-Rock transform -/

theorem hardRockFlipObj_invol (obj : HitObj) :
    hardRockFlipObj (hardRockFlipObj obj) = obj := by
  cases obj with
  | mk objName x y time st cps sl len dur =>
    have hy : OSU_PLAYFIELD_HEIGHT - (OSU_PLAYFIELD_HEIGHT - y) = y := by ring
    have hid : ∀ p : Point,
        ((fun p : Point => { p with y := OSU_PLAYFIELD_HEIGHT - p.y }) ∘
         (fun p : Point => { p with y := OSU_PLAYFIELD_HEIGHT - p.y })) p = id p := by
      intro p
      cases p with
      | mk px py =>
        simp only [Function.comp_apply, id_eq, Point.mk.injEq, true_and]
        ring
    have hcps : List.map
        ((fun p : Point => { p with y := OSU_PLAYFIELD_HEIGHT - p.y }) ∘
         (fun p : Point => { p with y := OSU_PLAYFIELD_HEIGHT - p.y })) cps = cps := by
      rw [List.map_congr_left fun p _ => hid p, List.map_id]
    by_cases h : objName = ObjName.slider
    · simp [hardRockFlipObj, h, List.map_map, hy, hcps]
    · simp [hardRockFlipObj, h, hy]

/-- C9: `apply_hard_rock_mod` sets each of CS/AR/OD/HP to
`min(original·1.4, 10)` (with the source's dict default of 5 for a missing
stat), mirrors every hit object's `y` — and, for sliders, every curve
point's `y` — about the playfield height, leaves every other field (x,
time, type, slider data, other difficulty entries, timing points)
unchanged, and the flip applied twice restores every object exactly. -/
theorem hard_rock_transform :
    (∀ b : Beatmap,
      (apply_hard_rock_mod b).difficulty.circleSize =
        some (min (b.difficulty.circleSize.getD 5 * 1.4) 10) ∧
      (apply_hard_rock_mod b).difficulty.approachRate =
        some (min (b.difficulty.approachRate.getD 5 * 1.4) 10) ∧
      (apply_hard_rock_mod b).difficulty.overallDifficulty =
        some (min (b.difficulty.overallDifficulty.getD 5 * 1.4) 10) ∧
      (apply_hard_rock_mod b).difficulty.hpDrainRate =
        some (min (b.difficulty.hpDrainRate.getD 5 * 1.4) 10) ∧
      (apply_hard_rock_mod b).difficulty.sliderMultiplier =
        b.difficulty.sliderMultiplier ∧
      (apply_hard_rock_mod b).difficulty.sliderTickRate =
        b.difficulty.sliderTickRate ∧
      (apply_hard_rock_mod b).timing_points = b.timing_points ∧
      (apply_hard_rock_mod b).hit_objects = b.hit_objects.map hardRockFlipObj) ∧
    (∀ obj : HitObj,
      (hardRockFlipObj obj).y = OSU_PLAYFIELD_HEIGHT - obj.y ∧
      (hardRockFlipObj obj).x = obj.x ∧
      (hardRockFlipObj obj).time = obj.time ∧
      (hardRockFlipObj obj).objName = obj.objName ∧
      (hardRockFlipObj obj).sliderType = obj.sliderType ∧
      (hardRockFlipObj obj).slides = obj.slides ∧
      (hardRockFlipObj obj).length = obj.length ∧
      (hardRockFlipObj obj).slider_duration = obj.slider_duration ∧
      (hardRockFlipObj obj).curvePoints =
        (if obj.objName = ObjName.slider then
          obj.curvePoints.map fun p => { p with y := OSU_PLAYFIELD_HEIGHT - p.y }
         else obj.curvePoints)) ∧
    (∀ obj : HitObj, hardRockFlipObj (hardRockFlipObj obj) = obj) ∧
    (∀ b : Beatmap,
      (apply_hard_rock_mod (apply_hard_rock_mod b)).hit_objects = b.hit_objects) := by
  refine ⟨?_, ?_, hardRockFlipObj_invol, ?_⟩
  · intro b
    simp [apply_hard_rock_mod, hardRockStat]
  · intro obj
    by_cases h : obj.objName = ObjName.slider <;> simp [hardRockFlipObj, h]
  · intro b
    simp only [apply_hard_rock_mod, List.map_map]
    have hi : ∀ obj ∈ b.hit_objects,
        (hardRockFlipObj ∘ hardRockFlipObj) obj = id obj := fun obj _ =>
      hardRockFlipObj_invol obj
    rw [List.map_congr_left hi, List.map_id]

/-! ## C8: slider ball position -/

theorem gsbp_eval (s : BallSlider) (path : List Point) (T : ℚ)
    (h : ¬ (s.end_time - s.start_time ≤ 0)) :
    get_slider_ball_position s path T =
      ballAtProgress s path
        (pyMod1 ((max 0 (min ((T - s.start_time) / (s.end_time - s.start_time)) 1)) *
            (s.slides : ℚ) -
          (pyTrunc ((max 0 (min ((T - s.start_time) / (s.end_time - s.start_time)) 1)) *
            (s.slides : ℚ)) : ℤ))) := by
  unfold get_slider_ball_position ballAtProgress
  simp only [if_neg h]

/-- C8 (amended): the ball position follows the claimed formula —
`t = clamp((T-start)/(end-start),0,1)`, `path_progress = t·slides`,
`loop_progress = path_progress mod 1`, index `⌊loop_progress·(N-1)⌋` with
linear blending — but every repeat traverses the path *forward*: during
repeat `k` at loop progress `q` the ball is at exactly the same point as at
loop progress `q` of the first repeat (a sawtooth, not back-and-forth; the
parenthesised reversal exists in tick generation only). -/
theorem slider_ball_forward (s : BallSlider) (path : List Point) (k : ℤ) (q : ℚ)
    (hdur : s.start_time < s.end_time) (hq0 : 0 ≤ q) (hq1 : q < 1)
    (hk0 : 0 ≤ k) (hks : (k : ℚ) + q < (s.slides : ℚ)) (hspos : 0 < s.slides) :
    get_slider_ball_position s path
        (s.start_time + (((k : ℚ) + q) / (s.slides : ℚ)) *
          (s.end_time - s.start_time)) =
      ballAtProgress s path q ∧
    get_slider_ball_position s path
        (s.start_time + (q / (s.slides : ℚ)) * (s.end_time - s.start_time)) =
      ballAtProgress s path q := by
  have hsq : (0 : ℚ) < (s.slides : ℚ) := by exact_mod_cast hspos
  have hsne : ((s.slides : ℚ)) ≠ 0 := ne_of_gt hsq
  have hdne : s.end_time - s.start_time ≠ 0 := sub_ne_zero.mpr (ne_of_gt hdur)
  have key : ∀ k' : ℤ, 0 ≤ k' → (k' : ℚ) + q < (s.slides : ℚ) →
      get_slider_ball_position s path
        (s.start_time + (((k' : ℚ) + q) / (s.slides : ℚ)) *
          (s.end_time - s.start_time)) =
      ballAtProgress s path q := by
    intro k' hk0' hks'
    rw [gsbp_eval s path _ (not_le.mpr (sub_pos.mpr hdur))]
    congr 1
    have helapsed : s.start_time + (((k' : ℚ) + q) / (s.slides : ℚ)) *
        (s.end_time - s.start_time) - s.start_time =
        (((k' : ℚ) + q) / (s.slides : ℚ)) * (s.end_time - s.start_time) := by
      ring
    rw [helapsed, mul_div_cancel_right₀ _ hdne]
    have hnn : 0 ≤ ((k' : ℚ) + q) / (s.slides : ℚ) :=
      div_nonneg (add_nonneg (by exact_mod_cast hk0') hq0) (le_of_lt hsq)
    have hlt1 : ((k' : ℚ) + q) / (s.slides : ℚ) < 1 := (div_lt_one hsq).mpr hks'
    rw [min_eq_left (le_of_lt hlt1), max_eq_right hnn, div_mul_cancel₀ _ hsne]
    have hfl : pyTrunc ((k' : ℚ) + q) = k' := by
      unfold pyTrunc
      rw [if_neg (not_lt.mpr (add_nonneg (by exact_mod_cast hk0') hq0)),
        Int.floor_int_add, Int.floor_eq_zero_iff.mpr (Set.mem_Ico.mpr ⟨hq0, hq1⟩),
        add_zero]
    rw [hfl, show ((k' : ℚ) + q) - (k' : ℚ) = q from by ring]
    unfold pyMod1
    rw [Int.floor_eq_zero_iff.mpr (Set.mem_Ico.mpr ⟨hq0, hq1⟩)]
    simp
  refine ⟨key k hk0 hks, ?_⟩
  have hk0q : (0 : ℚ) ≤ (k : ℚ) := by exact_mod_cast hk0
  have h0 := key 0 le_rfl (by push_cast; linarith [hks, hk0q])
  have hq : ((0 : ℤ) : ℚ) + q = q := by push_cast; ring
  rw [hq] at h0
  exact h0

/-- C8 counterexample: a 2-repeat slider over [0,1000] with the 2-sample
path (0,0)–(100,0); at T = 600 (progress 0.2 into the *second*, odd-numbered
repeat) the code returns the forward point x = 20, whereas the claimed
backwards traversal of odd repeats would give x = 80. -/
theorem slider_ball_counterexample :
    get_slider_ball_position ⟨0, 1000, 0, 0, 2⟩ [⟨0, 0⟩, ⟨100, 0⟩] 600 =
      ⟨20, 0⟩ ∧
    ballPosSpecBackForth ⟨0, 1000, 0, 0, 2⟩ [⟨0, 0⟩, ⟨100, 0⟩] 600 =
      ⟨80, 0⟩ ∧
    get_slider_ball_position ⟨0, 1000, 0, 0, 2⟩ [⟨0, 0⟩, ⟨100, 0⟩] 600 ≠
      ballPosSpecBackForth ⟨0, 1000, 0, 0, 2⟩ [⟨0, 0⟩, ⟨100, 0⟩] 600 := by
  refine ⟨?_, ?_, ?_⟩ <;>
    norm_num [get_slider_ball_position, ballPosSpecBackForth, pyTrunc, pyMod1,
      pyGet]

/-- Witness for C8: the forward-traversal theorem applied at T = 600 of the
same 2-repeat slider (second repeat, loop progress 1/5). -/
theorem slider_ball_forward_witness :
    get_slider_ball_position ⟨0, 1000, 0, 0, 2⟩ [⟨0, 0⟩, ⟨100, 0⟩] 600 =
      ballAtProgress ⟨0, 1000, 0, 0, 2⟩ [⟨0, 0⟩, ⟨100, 0⟩] (1 / 5) := by
  have h := (slider_ball_forward ⟨0, 1000, 0, 0, 2⟩ [⟨0, 0⟩, ⟨100, 0⟩] 1 (1 / 5)
    (by norm_num) (by norm_num) (by norm_num) (by norm_num) (by norm_num)
    (by norm_num)).1
  have ht : (600 : ℚ) =
      (0 : ℚ) + ((((1 : ℤ) : ℚ) + 1 / 5) / (((2 : ℤ) : ℚ))) * (1000 - 0) := by
    norm_num
  rw [ht]
  exact h

/-! ## C7: perfect-circle degeneracies -/

/-- C7 (amended): the *position query* `get_slider_position_at` does recover
from colinear control points of a `'P'` slider by blending linearly between
the head position and the last curve point; but the *path sampler*
`sample_perfect_segment` does not fall back — for any three pairwise-distinct
colinear points (parallel perpendicular bisectors) it returns the empty
list. -/
theorem perfect_arc_degeneracy :
    (∀ (o : RealOracle) (s : HitObj) (progress : ℚ),
      s.sliderType = 'P' → s.curvePoints ≠ [] →
      |(s.x - (s.curvePoints.headD ⟨0, 0⟩).x) *
          ((s.curvePoints.headD ⟨0, 0⟩).y - (s.curvePoints.getLastD ⟨0, 0⟩).y) -
        ((s.curvePoints.headD ⟨0, 0⟩).x - (s.curvePoints.getLastD ⟨0, 0⟩).x) *
          (s.y - (s.curvePoints.headD ⟨0, 0⟩).y)| < 1e-6 →
      get_slider_position_at o s progress =
        ⟨s.x + ((s.curvePoints.getLastD ⟨0, 0⟩).x - s.x) * progress,
         s.y + ((s.curvePoints.getLastD ⟨0, 0⟩).y - s.y) * progress⟩) ∧
    (∀ (o : RealOracle) (p0 p1 p2 : Point) (n : ℕ),
      p0 ≠ p1 → p1 ≠ p2 →
      (p1.x - p0.x) * (p2.y - p1.y) = (p1.y - p0.y) * (p2.x - p1.x) →
      sample_perfect_segment o p0 p1 p2 n = []) := by
  constructor
  · intro o s progress hP hne hdet
    have hL : ¬ (s.sliderType = 'L') := by rw [hP]; decide
    have hlen : ¬ (s.curvePoints.length < 1) := by
      have := List.length_pos.mpr hne
      omega
    have hcirc : calculate_circle o s.x s.y
        (s.curvePoints.headD ⟨0, 0⟩).x (s.curvePoints.headD ⟨0, 0⟩).y
        (s.curvePoints.getLastD ⟨0, 0⟩).x (s.curvePoints.getLastD ⟨0, 0⟩).y =
        none := by
      unfold calculate_circle
      rw [if_pos hdet]
    simp only [get_slider_position_at, hL, if_false, hP, if_true, hlen, hcirc]
    split <;> rfl
  · intro o p0 p1 p2 n hne01 hne12 hco
    by_cases h01 : p1.x - p0.x = 0
    · by_cases h12 : p2.x - p1.x = 0
      · -- both chords vertical: both bisectors horizontal (slope 0), parallel
        unfold sample_perfect_segment
        simp [h01, h12]
      · -- colinear forces p0 = p1, contradiction
        exfalso
        rw [h01, zero_mul] at hco
        have hy : p1.y - p0.y = 0 := by
          rcases mul_eq_zero.mp hco.symm with h | h
          · exact h
          · exact absurd h h12
        exact hne01 (by
          cases p0 with
          | mk x0 y0 =>
            cases p1 with
            | mk x1 y1 =>
              simp only [Point.mk.injEq]
              constructor
              · linarith [h01]
              · linarith [hy])
    · by_cases h12 : p2.x - p1.x = 0
      · exfalso
        rw [h12, mul_zero] at hco
        have hy : p2.y - p1.y = 0 := by
          rcases mul_eq_zero.mp hco with h | h
          · exact absurd h h01
          · exact h
        exact hne12 (by
          cases p1 with
          | mk x1 y1 =>
            cases p2 with
            | mk x2 y2 =>
              simp only [Point.mk.injEq]
              constructor
              · linarith [h12]
              · linarith [hy])
      · -- both chords sloped: equal slopes, hence equal perpendicular slopes
        have hs : (p1.y - p0.y) / (p1.x - p0.x) = (p2.y - p1.y) / (p2.x - p1.x) := by
          rw [div_eq_div_iff h01 h12]
          linarith [hco]
        unfold sample_perfect_segment
        by_cases hz : (p1.y - p0.y) / (p1.x - p0.x) = 0
        · have hz2 : (p2.y - p1.y) / (p2.x - p1.x) = 0 := hs ▸ hz
          simp [h01, h12, hz, hz2]
        · have hz2 : ¬ ((p2.y - p1.y) / (p2.x - p1.x) = 0) := hs ▸ hz
          simp [h01, h12, hz, hz2, hs]

/-- C7 counterexample: for the colinear points (0,0), (1,1), (2,2) the
perfect-arc sampler yields the *empty* path, not a linear fallback. -/
theorem perfect_arc_counterexample :
    sample_perfect_segment zeroOracle ⟨0, 0⟩ ⟨1, 1⟩ ⟨2, 2⟩ 100 = [] := by
  norm_num [sample_perfect_segment]

/-- Witness for C7: the amended theorem applied to a colinear `'P'` slider
(position query falls back to the line) and to the colinear points
(0,0), (3,3), (6,6) (sampler yields the empty path). -/
theorem perfect_arc_degeneracy_witness :
    get_slider_position_at zeroOracle
      ⟨ObjName.slider, 0, 0, 1000, 'P', [⟨1, 1⟩, ⟨2, 2⟩], 1, 100, 500⟩ (1 / 2) =
      ⟨0 + (2 - 0) * (1 / 2), 0 + (2 - 0) * (1 / 2)⟩ ∧
    sample_perfect_segment zeroOracle ⟨0, 0⟩ ⟨3, 3⟩ ⟨6, 6⟩ 50 = [] := by
  constructor
  · exact perfect_arc_degeneracy.1 zeroOracle
      ⟨ObjName.slider, 0, 0, 1000, 'P', [⟨1, 1⟩, ⟨2, 2⟩], 1, 100, 500⟩ (1 / 2)
      rfl (by simp) (by norm_num)
  · exact perfect_arc_degeneracy.2 zeroOracle ⟨0, 0⟩ ⟨3, 3⟩ ⟨6, 6⟩ 50
      (by simp) (by simp) (by norm_num)

/-! ## C5: time-ordering of the synthesizers -/

theorem mem_of_getLast? {α : Type} {l : List α} {x : α} (h : l.getLast? = some x) :
    x ∈ l := by
  rcases List.mem_getLast?_eq_getLast (by rw [h]; rfl) with ⟨h9, he⟩
  rw [he]
  exact List.getLast_mem h9

theorem autoObjEvents_spec (o : RealOracle) (obj : HitObj)
    (hd : obj.objName = ObjName.slider → 10 ≤ obj.slider_duration) :
    ∃ evs0, autoObjEvents o obj = some evs0 ∧
      List.Chain' timeLE evs0 ∧
      ∀ e ∈ evs0, obj.time - 36 ≤ e.time ∧ e.time ≤ autoEnd obj := by
  cases hobj : obj.objName with
  | circle =>
    refine ⟨[{ time := obj.time - 36, x := obj.x, y := obj.y, keys := 1 }],
      by simp [autoObjEvents, hobj], by simp, ?_⟩
    intro e he
    simp only [List.mem_singleton] at he
    subst he
    have : autoEnd obj = obj.time - 36 := by simp [autoEnd, hobj]
    simp [this]
  | spinner =>
    refine ⟨[⟨obj.time - 36, OSU_PLAYFIELD_WIDTH / 2, OSU_PLAYFIELD_HEIGHT / 2, 1⟩],
      by simp [autoObjEvents, hobj], by simp, ?_⟩
    intro e he
    simp only [List.mem_singleton] at he
    subst he
    have : autoEnd obj = obj.time - 36 := by simp [autoEnd, hobj]
    simp [this]
  | slider =>
    have hdur : 10 ≤ obj.slider_duration := hd hobj
    have hdpos : (0 : ℚ) ≤ obj.slider_duration := by linarith
    have hnp1 : 1 ≤ pyTrunc (obj.slider_duration / 10) := by
      unfold pyTrunc
      rw [if_neg (not_lt.mpr (div_nonneg hdpos (by norm_num)))]
      refine Int.le_floor.mpr ?_
      push_cast
      rw [le_div_iff (by norm_num : (0 : ℚ) < 10)]
      linarith
    have hnpne : pyTrunc (obj.slider_duration / 10) ≠ 0 := by omega
    have hnpq : (1 : ℚ) ≤ ((pyTrunc (obj.slider_duration / 10) : ℤ) : ℚ) := by
      exact_mod_cast hnp1
    have hnppos : (0 : ℚ) < ((pyTrunc (obj.slider_duration / 10) : ℤ) : ℚ) := by
      linarith
    refine ⟨_, by simp only [autoObjEvents, hobj]; rw [if_neg hnpne], ?_, ?_⟩
    · apply chain'_map_range
      intro i hi
      show obj.time + ((i : ℚ) / _) * obj.slider_duration ≤
        obj.time + (((i + 1 : ℕ) : ℚ) / _) * obj.slider_duration
      push_cast
      have hdiv : (i : ℚ) / (pyTrunc (obj.slider_duration / 10) : ℚ) ≤
          ((i : ℚ) + 1) / (pyTrunc (obj.slider_duration / 10) : ℚ) :=
        (div_le_div_right hnppos).mpr (by linarith)
      nlinarith [mul_le_mul_of_nonneg_right hdiv hdpos]
    · intro e he
      simp only [List.mem_map, List.mem_range] at he
      obtain ⟨i, hi, rfl⟩ := he
      have hiq : (0 : ℚ) ≤ (i : ℚ) := by positivity
      have hile : (i : ℚ) ≤ ((pyTrunc (obj.slider_duration / 10) : ℤ) : ℚ) := by
        rw [Int.lt_toNat] at hi
        exact_mod_cast (by omega : (i : ℤ) ≤ pyTrunc (obj.slider_duration / 10))
      have hfrac0 : (0 : ℚ) ≤
          (i : ℚ) / (pyTrunc (obj.slider_duration / 10) : ℚ) :=
        div_nonneg hiq (le_of_lt hnppos)
      have hfrac1 : (i : ℚ) / (pyTrunc (obj.slider_duration / 10) : ℚ) ≤ 1 :=
        (div_le_one hnppos).mpr hile
      have hend : autoEnd obj = obj.time + obj.slider_duration := by
        simp [autoEnd, hobj]
      constructor
      · show obj.time - 36 ≤ obj.time + _ * obj.slider_duration
        nlinarith [mul_nonneg hfrac0 hdpos]
      · show obj.time + _ * obj.slider_duration ≤ autoEnd obj
        rw [hend]
        nlinarith [mul_le_mul_of_nonneg_right hfrac1 hdpos]

theorem auto_monotone_aux (o : RealOracle) :
    ∀ objs : List HitObj,
      (∀ obj ∈ objs, obj.objName = ObjName.slider → 10 ≤ obj.slider_duration) →
      List.Chain' autoGap objs →
      ∃ evs, generate_auto_play_cursor_data o objs = some evs ∧
        List.Chain' timeLE evs ∧
        ∀ e ∈ evs, ∀ b ∈ objs.head?, b.time - 36 ≤ e.time := by
  intro objs
  induction objs with
  | nil =>
    intro _ _
    exact ⟨[], rfl, by simp, by simp⟩
  | cons obj rest ih =>
    intro hdur hchain
    obtain ⟨evs0, h0eq, h0chain, h0bounds⟩ :=
      autoObjEvents_spec o obj (hdur obj (by simp))
    obtain ⟨tailEvs, hteq, htchain, htbound⟩ :=
      ih (fun b hb => hdur b (List.mem_cons_of_mem obj hb))
        ((List.chain'_cons'.mp hchain).2)
    have hgap : ∀ b ∈ rest.head?, autoEnd obj ≤ b.time - 36 := by
      intro b hb
      have hrel : autoGap obj b := (List.chain'_cons'.mp hchain).1 b hb
      by_cases hsl : obj.objName = ObjName.slider
      · rw [autoEnd, if_pos hsl]
        exact hrel.1 hsl
      · rw [autoEnd, if_neg hsl]
        have := hrel.2 hsl
        linarith
    refine ⟨evs0 ++ tailEvs, ?_, ?_, ?_⟩
    · simp [generate_auto_play_cursor_data, h0eq, hteq]
    · refine List.Chain'.append h0chain htchain ?_
      intro x hx y hy
      have hxmem : x ∈ evs0 := mem_of_getLast? hx
      have hymem : y ∈ tailEvs := List.mem_of_mem_head? hy
      cases hrest : rest with
      | nil =>
        exfalso
        rw [hrest] at hteq
        have htnil : tailEvs = [] := by
          simpa [generate_auto_play_cursor_data] using hteq.symm
        rw [htnil] at hy
        simp at hy
      | cons b rest2 =>
        have hbt := htbound y hymem b (by rw [hrest]; rfl)
        have hend := hgap b (by rw [hrest]; rfl)
        have hx2 := (h0bounds x hxmem).2
        show x.time ≤ y.time
        linarith
    · intro e he b hb
      have hb2 : obj = b := by simpa using hb
      rcases List.mem_append.mp he with h | h
      · rw [← hb2]
        exact (h0bounds e h).1
      · cases hrest : rest with
        | nil =>
          exfalso
          rw [hrest] at hteq
          have : tailEvs = [] := by
            simpa [generate_auto_play_cursor_data] using hteq.symm
          rw [this] at h
          simp at h
        | cons c rest2 =>
          have hce := htbound e h c (by rw [hrest]; rfl)
          have hrel : autoGap obj c :=
            (List.chain'_cons'.mp hchain).1 c (by rw [hrest]; rfl)
          have hbc : obj.time ≤ c.time := by
            by_cases hsl : obj.objName = ObjName.slider
            · have h1 := hrel.1 hsl
              have h2 : (0 : ℚ) ≤ obj.slider_duration := by
                have := hdur obj (by simp) hsl
                linarith
              linarith
            · exact hrel.2 hsl
          rw [← hb2]
          linarith

theorem ramp_bounds {base td : ℚ} {N : ℤ} (hN : 1 ≤ N) (htd : 0 ≤ td)
    (f : ℕ → CursorEvent)
    (hf : ∀ t : ℕ, (f t).time = base + ((t : ℚ) / (N : ℚ)) * td) :
    List.Chain' timeLE ((List.range N.toNat).map f) ∧
    ∀ e ∈ (List.range N.toNat).map f, base ≤ e.time ∧ e.time ≤ base + td := by
  have hNq : (1 : ℚ) ≤ ((N : ℤ) : ℚ) := by exact_mod_cast hN
  have hNpos : (0 : ℚ) < ((N : ℤ) : ℚ) := by linarith
  constructor
  · apply chain'_map_range
    intro i _
    show (f i).time ≤ (f (i + 1)).time
    rw [hf, hf]
    have hd : ((i : ℚ)) / (N : ℚ) ≤ (((i + 1 : ℕ) : ℚ)) / (N : ℚ) := by
      apply (div_le_div_right hNpos).mpr
      push_cast
      linarith
    nlinarith [mul_le_mul_of_nonneg_right hd htd]
  · intro e he
    obtain ⟨t, ht, rfl⟩ := List.mem_map.mp he
    rw [List.mem_range] at ht
    have h1 : (0 : ℚ) ≤ (t : ℚ) / (N : ℚ) := by positivity
    have h2 : (t : ℚ) / (N : ℚ) ≤ 1 := by
      apply (div_le_one hNpos).mpr
      have : (t : ℤ) < N := by rwa [Int.lt_toNat] at ht
      exact_mod_cast le_of_lt this
    rw [hf]
    constructor
    · nlinarith [mul_nonneg h1 htd]
    · nlinarith [mul_le_mul_of_nonneg_right h2 htd]

theorem dancerMovement_spec (o : RealOracle) (dd : ℚ) (cd : ℤ)
    (sx sy x y prevTime td : ℚ) (N : ℤ) (hN : 1 ≤ N) (htd : 0 ≤ td) :
    List.Chain' timeLE (dancerMovement o dd cd sx sy x y prevTime td N) ∧
    ∀ e ∈ dancerMovement o dd cd sx sy x y prevTime td N,
      prevTime ≤ e.time ∧ e.time ≤ prevTime + td :=
  ramp_bounds hN htd _ fun t => rfl

theorem dancerHold_spec (x y time td2 : ℚ) (N2 : ℤ) (hN : 1 ≤ N2)
    (htd : 0 ≤ td2) :
    List.Chain' timeLE (dancerHold x y time td2 N2) ∧
    ∀ e ∈ dancerHold x y time td2 N2,
      time ≤ e.time ∧ e.time ≤ time + td2 :=
  ramp_bounds hN htd _ fun t => rfl

theorem dancerStep_eq (o : RealOracle) (dd : ℚ) (alt : Bool) (st : DancerState)
    (obj : HitObj) (rest : List HitObj)
    (hns : ¬ obj.objName = ObjName.slider)
    (htd0 : ¬ (obj.time - st.prevTime ≤ 0)) :
    dancerStep o dd alt st obj rest =
      (dancerMovement o dd (dancerCurveDir o alt st obj rest)
          (dancerStart st obj).1 (dancerStart st obj).2 obj.x obj.y st.prevTime
          (obj.time - st.prevTime)
          (max (pyTrunc ((obj.time - st.prevTime) / 2)) 1) ++
        dancerHold obj.x obj.y obj.time (obj.time + 20 - obj.time)
          (max (pyTrunc ((obj.time + 20 - obj.time) / 2)) 1) ++
        [⟨obj.time + 20, obj.x, obj.y, 0⟩],
       ⟨obj.time + 20, obj.x, obj.y, none, some obj,
        dancerCurveDir o alt st obj rest⟩) := by
  simp only [dancerStep, htd0, if_false, hns, ite_false]

theorem dancerStep_spec (o : RealOracle) (dd : ℚ) (alt : Bool) (st : DancerState)
    (obj : HitObj) (rest : List HitObj)
    (hns : ¬ obj.objName = ObjName.slider)
    (hprev : st.prevTime < obj.time) :
    (dancerStep o dd alt st obj rest).2.prevTime = obj.time + 20 ∧
    List.Chain' timeLE (dancerStep o dd alt st obj rest).1 ∧
    ∀ e ∈ (dancerStep o dd alt st obj rest).1,
      st.prevTime ≤ e.time ∧ e.time ≤ obj.time + 20 := by
  have htd0 : ¬ (obj.time - st.prevTime ≤ 0) := not_le.mpr (by linarith)
  have heq := dancerStep_eq o dd alt st obj rest hns htd0
  obtain ⟨hmc, hmb⟩ := dancerMovement_spec o dd (dancerCurveDir o alt st obj rest)
    (dancerStart st obj).1 (dancerStart st obj).2 obj.x obj.y st.prevTime
    (obj.time - st.prevTime) _ (le_max_right _ 1) (by linarith)
  obtain ⟨hhc, hhb⟩ := dancerHold_spec obj.x obj.y obj.time
    (obj.time + 20 - obj.time) _ (le_max_right _ 1) (by linarith)
  rw [heq]
  refine ⟨rfl, ?_, ?_⟩
  · refine List.Chain'.append (List.Chain'.append hmc hhc ?_) (by simp) ?_
    · intro a ha b hb
      have hab := (hmb a (mem_of_getLast? ha)).2
      have hbb := (hhb b (List.mem_of_mem_head? hb)).1
      show a.time ≤ b.time
      linarith
    · intro a ha b hb
      have hb2 : ({ time := obj.time + 20, x := obj.x, y := obj.y, keys := 0 } :
          CursorEvent) = b := by simpa using hb
      rcases List.mem_append.mp (mem_of_getLast? ha) with h | h
      · have := (hmb a h).2
        show a.time ≤ b.time
        rw [← hb2]
        show a.time ≤ obj.time + 20
        linarith
      · have := (hhb a h).2
        show a.time ≤ b.time
        rw [← hb2]
        show a.time ≤ obj.time + 20
        linarith
  · intro e he
    rcases List.mem_append.mp he with he2 | he2
    · rcases List.mem_append.mp he2 with h | h
      · have h1 := hmb e h
        constructor
        · exact h1.1
        · linarith [h1.2]
      · have h1 := hhb e h
        constructor
        · linarith [h1.1]
        · linarith [h1.2]
    · have he3 : e = ({ time := obj.time + 20, x := obj.x, y := obj.y, keys := 0 } :
          CursorEvent) := by simpa using he2
      rw [he3]
      constructor
      · show st.prevTime ≤ obj.time + 20
        linarith
      · show obj.time + 20 ≤ obj.time + 20
        exact le_refl _

theorem dancerLoop_spec (o : RealOracle) (dd : ℚ) (alt : Bool) :
    ∀ (objs : List HitObj) (st : DancerState),
      (∀ obj ∈ objs, ¬ obj.objName = ObjName.slider) →
      List.Chain' (fun a b : HitObj => a.time + 20 < b.time) objs →
      (∀ b ∈ objs.head?, st.prevTime < b.time) →
      List.Chain' timeLE (dancerLoop o dd alt st objs) ∧
      ∀ e ∈ dancerLoop o dd alt st objs, st.prevTime ≤ e.time := by
  intro objs
  induction objs with
  | nil =>
    intro st _ _ _
    exact ⟨by simp [dancerLoop], by simp [dancerLoop]⟩
  | cons obj rest ih =>
    intro st hns hchain hhead
    have hprev : st.prevTime < obj.time := hhead obj rfl
    obtain ⟨hst', hchain0, hbound0⟩ :=
      dancerStep_spec o dd alt st obj rest (hns obj (by simp)) hprev
    have hrest_head : ∀ b ∈ rest.head?,
        (dancerStep o dd alt st obj rest).2.prevTime < b.time := by
      intro b hb
      rw [hst']
      exact (List.chain'_cons'.mp hchain).1 b hb
    obtain ⟨htc, htb⟩ := ih (dancerStep o dd alt st obj rest).2
      (fun b hb => hns b (List.mem_cons_of_mem obj hb))
      (List.chain'_cons'.mp hchain).2 hrest_head
    constructor
    · show List.Chain' timeLE
        ((dancerStep o dd alt st obj rest).1 ++
          dancerLoop o dd alt (dancerStep o dd alt st obj rest).2 rest)
      refine List.Chain'.append hchain0 htc ?_
      intro a ha b hb
      have ha2 := (hbound0 a (mem_of_getLast? ha)).2
      have hb2 := htb b (List.mem_of_mem_head? hb)
      rw [hst'] at hb2
      show a.time ≤ b.time
      linarith
    · intro e he
      show st.prevTime ≤ e.time
      rcases List.mem_append.mp he with h | h
      · exact (hbound0 e h).1
      · have := htb e h
        rw [hst'] at this
        linarith

/-- C5 (amended): the synthesizers' cursor-event sequences are *not*
non-decreasing for every beatmap (see the counterexample); they are
non-decreasing under spacing conditions.  Auto: when every slider lasts at
least 10 ms (so the synthesizer is defined at all, cf. C10) and consecutive
objects satisfy `autoGap` (sorted, and after a slider the next object's
36 ms lead-in starts no earlier than the slider's end), the output is
defined and time-ordered.  Dancer: for slider-free beatmaps whose
consecutive objects are more than 20 ms apart (the key-hold window), the
output is time-ordered. -/
theorem synthesizers_time_order :
    (∀ (o : RealOracle) (objs : List HitObj),
      (∀ obj ∈ objs, obj.objName = ObjName.slider → 10 ≤ obj.slider_duration) →
      List.Chain' autoGap objs →
      ∃ evs, generate_auto_play_cursor_data o objs = some evs ∧
        List.Chain' timeLE evs) ∧
    (∀ (o : RealOracle) (objs : List HitObj) (dd : ℚ) (alt : Bool),
      (∀ obj ∈ objs, ¬ obj.objName = ObjName.slider) →
      List.Chain' (fun a b : HitObj => a.time + 20 < b.time) objs →
      List.Chain' timeLE (generate_dancer_cursor_data o objs dd alt)) := by
  constructor
  · intro o objs hd hc
    obtain ⟨evs, heq, hchain, -⟩ := auto_monotone_aux o objs hd hc
    exact ⟨evs, heq, hchain⟩
  · intro o objs dd alt hns hc
    cases objs with
    | nil => simp [generate_dancer_cursor_data]
    | cons first rest =>
      have hhead : ∀ b ∈ (first :: rest).head?,
          (⟨first.time - 1000, first.x, first.y, none, none, 1⟩ :
            DancerState).prevTime < b.time := by
        intro b hb
        have hfb : first = b := by simpa using hb
        rw [← hfb]
        show first.time - 1000 < first.time
        linarith
      obtain ⟨hlc, hlb⟩ := dancerLoop_spec o dd alt (first :: rest)
        ⟨first.time - 1000, first.x, first.y, none, none, 1⟩ hns hc hhead
      show List.Chain' timeLE
        ({ time := first.time - 1000, x := first.x, y := first.y, keys := 0 } ::
          dancerLoop o dd alt
            ⟨first.time - 1000, first.x, first.y, none, none, 1⟩ (first :: rest))
      rw [List.chain'_cons']
      refine ⟨?_, hlc⟩
      intro y hy
      exact hlb y (List.mem_of_mem_head? hy)

/-- C5 counterexample: a 20 ms linear slider at t=1000 followed by a circle
at t=1040.  Auto emits the slider events at 1000, 1010, 1020 and then the
circle's event at 1040 − 36 = 1004, which goes *backwards* in time. -/
theorem synthesizers_time_order_counterexample :
    generate_auto_play_cursor_data zeroOracle
      [⟨ObjName.slider, 0, 0, 1000, 'L', [⟨100, 0⟩], 1, 100, 20⟩,
       ⟨ObjName.circle, 50, 50, 1040, 'L', [], 1, 0, 0⟩] =
      some [⟨1000, 0, 0, 1⟩, ⟨1010, 50, 0, 1⟩, ⟨1020, 100, 0, 1⟩,
        ⟨1004, 50, 50, 1⟩] ∧
    ¬ List.Chain' timeLE
      [(⟨1000, 0, 0, 1⟩ : CursorEvent), ⟨1010, 50, 0, 1⟩, ⟨1020, 100, 0, 1⟩,
       ⟨1004, 50, 50, 1⟩] := by
  constructor
  · norm_num [generate_auto_play_cursor_data, autoObjEvents,
      get_slider_position_at, pyTrunc]
    rw [show List.range (Int.toNat 3) = [0, 1, 2] from rfl]
    norm_num
  · intro h
    have h2 := List.chain'_iff_get.mp h 2 (by norm_num)
    simp only [timeLE] at h2
    norm_num at h2

/-- Witness for C5: both synthesizers on a two-circle beatmap 200 ms apart
produce time-ordered sequences. -/
theorem synthesizers_time_order_witness :
    (∃ evs, generate_auto_play_cursor_data zeroOracle
        [⟨ObjName.circle, 0, 0, 1000, 'L', [], 1, 0, 0⟩,
         ⟨ObjName.circle, 10, 10, 1200, 'L', [], 1, 0, 0⟩] = some evs ∧
      List.Chain' timeLE evs) ∧
    List.Chain' timeLE
      (generate_dancer_cursor_data zeroOracle
        [⟨ObjName.circle, 0, 0, 1000, 'L', [], 1, 0, 0⟩,
         ⟨ObjName.circle, 10, 10, 1200, 'L', [], 1, 0, 0⟩] (1 / 2) false) := by
  constructor
  · refine synthesizers_time_order.1 zeroOracle _ ?_ ?_
    · intro obj hm hsl
      fin_cases hm <;> simp at hsl
    · rw [List.chain'_pair]
      refine ⟨fun h => by simp at h, fun _ => by norm_num⟩
  · refine synthesizers_time_order.2 zeroOracle _ (1 / 2) false ?_ ?_
    · intro obj hm
      fin_cases hm <;> simp
    · rw [List.chain'_pair]
      norm_num

/-! ## C10: Auto synthesizer division by zero -/

theorem pyTrunc_eq_zero {q : ℚ} (h0 : 0 ≤ q) (h1 : q < 1) : pyTrunc q = 0 := by
  unfold pyTrunc
  rw [if_neg (not_lt.mpr h0)]
  exact Int.floor_eq_zero_iff.mpr ⟨h0, h1⟩

/-- C10: on any beatmap containing a slider with `0 < slider_duration < 10`,
the Auto synthesizer computes `num_points = int(slider_duration / 10) = 0`
and then divides by it, raising an uncaught `ZeroDivisionError` (modelled as
`none`) instead of producing a cursor-event sequence. -/
theorem auto_play_div_zero (o : RealOracle) (objs : List HitObj)
    (h : ∃ obj ∈ objs, obj.objName = ObjName.slider ∧
      0 < obj.slider_duration ∧ obj.slider_duration < 10) :
    generate_auto_play_cursor_data o objs = none := by
  induction objs with
  | nil =>
    obtain ⟨obj, hmem, _⟩ := h
    exact absurd hmem (List.not_mem_nil obj)
  | cons a rest ih =>
    obtain ⟨obj, hmem, hsl, hpos, hlt⟩ := h
    rcases List.mem_cons.mp hmem with rfl | hmem2
    · have hnp : pyTrunc (obj.slider_duration / 10) = 0 :=
        pyTrunc_eq_zero (le_of_lt (div_pos hpos (by norm_num)))
          ((div_lt_one (by norm_num)).mpr hlt)
      have hnone : autoObjEvents o obj = none := by
        simp [autoObjEvents, hsl, hnp]
      simp [generate_auto_play_cursor_data, hnone]
    · have htail := ih ⟨obj, hmem2, hsl, hpos, hlt⟩
      simp only [generate_auto_play_cursor_data, htail]
      cases autoObjEvents o a <;> rfl

/-- Witness for C10: a single linear slider of duration 5 ms. -/
theorem auto_play_div_zero_witness :
    generate_auto_play_cursor_data zeroOracle
      [⟨ObjName.slider, 0, 0, 1000, 'L', [⟨100, 0⟩], 1, 100, 5⟩] = none :=
  auto_play_div_zero zeroOracle _
    ⟨⟨ObjName.slider, 0, 0, 1000, 'L', [⟨100, 0⟩], 1, 100, 5⟩,
      List.mem_singleton.mpr rfl, rfl, by norm_num, by norm_num⟩
